import Mathlib

/-!
# Shallow embedding of `optparse.hpp`

This file embeds the command-line option parsing library `optparse.hpp`
(class `optparse`) in Lean and proves properties about it.

Modelling conventions:

* `std::map<K, V>` is modelled as an association list `List (K × V)` with
  unique keys.  `std::map` keeps its keys sorted; we instead keep insertion
  order (inserting at the back), since no property proved in this file
  depends on the iteration order of the map.  `try_emplace` is `mapInsert`
  (which never overwrites an existing key and reports whether it inserted),
  `find` is `mapFind`, `erase` is `mapErase`, and `merge` is `mapMerge`
  (which moves only those entries of the source whose key is absent from
  the destination, exactly like `std::map::merge`).
* C++ exceptions become the `Except` monad: a thrown exception is an
  `Except.error`.  Because the member map `values` of the `optparse`
  instance keeps the entries already inserted when an exception escapes
  `parse`'s token loop, the error case carries the value store at the
  point of the throw.
* The file system is a function `String → Option (List String)` mapping a
  path to the list of lines of the file (or `none` when the file cannot
  be opened, which the C++ code reports by throwing).
* `parse`'s token loop is written with an explicit fuel parameter so that
  it is structurally recursive and computes by `rfl`/`decide`.  `parse`
  instantiates the fuel with the number of tokens; every loop iteration
  consumes at least one token, so the fuel is never exhausted, and the
  proved equations `parseLoop_nil`/`parseLoop_cons` below pin the loop to
  the shape of the C++ `for` loop.
* `std::stringstream >> value` is modelled by an `Extractor`: a partial
  prefix parser together with the `typeid` name used in the exception
  message.  `extractInt` follows `operator>>(int)`: skip leading
  whitespace, read an optional sign and a non-empty digit run, and ignore
  everything after the digits; `extractBool` follows `operator>>(bool)`
  with default flags (the read integer must be 0 or 1).
* The text printed by `usage` is not modelled; only its return value is
  (`-1` when called with a non-empty error message, `1` otherwise),
  because that is all `parse` observes.
-/

set_option autoImplicit false

namespace Optparse

/-- The error conditions thrown by the C++ code (all of them are
`std::invalid_argument` or `std::runtime_error`; we distinguish them by
their throw site). -/
inductive ParseError where
  | malformedArgument : ParseError
  | unknownOption : String → ParseError
  | insufficientArguments : ParseError
  | duplicateOption : String → ParseError
  | duplicateRegistryOption : String → ParseError
  | ioError : String → ParseError
  | unknownConfigOption : String → ParseError
  | duplicateConfigOption : String → ParseError
  | missingArgument : String → ParseError
  | conversionError : String → String → ParseError
deriving DecidableEq, Repr

/-- The `what()` message of each error, as built at the C++ throw sites. -/
def errMsg : ParseError → String
  | .malformedArgument =>
      "optparse::parse: argument options must start with a single/double dash"
  | .unknownOption k => "optparse::parse: unknow argument: " ++ k
  | .insufficientArguments =>
      "optparse::parse: insufficient number of argument values"
  | .duplicateOption k =>
      "optparse::parse: duplicate option passed by command line: " ++ k
  | .duplicateRegistryOption k =>
      "optparse::insert_option: option already exists: " ++ k
  | .ioError p =>
      "optparse::parse: opening file '" ++ p ++
        "' failed, it either doesn't exist or is not accessible."
  | .unknownConfigOption k =>
      "optparse::parse: read an unexpected option from the configuration file: " ++ k
  | .duplicateConfigOption k =>
      "optparse::parse: duplicate option found in the configuration file: " ++ k
  | .missingArgument k => "optparse::parse: missing argument(s), e.g., " ++ k
  | .conversionError a t =>
      "Invalid conversion of the argument '" ++ a ++ "' to type " ++ t

/-- The `parameters` struct of an option registry entry. -/
structure Params where
  nargs : Nat
  default_value : String
  description : String
  user_option : Bool
deriving DecidableEq, Repr

/-- `std::map<std::string, A>` as an association list with unique keys. -/
abbrev SMap (A : Type) : Type := List (String × A)

/-- `map.find(k)` : the value bound to `k`, if any. -/
def mapFind {A : Type} : SMap A → String → Option A
  | [], _ => none
  | (k', v') :: rest, k => if k = k' then some v' else mapFind rest k

/-- `map.try_emplace(k, v)` : insert `(k, v)` only when `k` is absent;
the boolean reports whether the insertion happened. -/
def mapInsert {A : Type} (m : SMap A) (k : String) (v : A) : SMap A × Bool :=
  if (mapFind m k).isSome then (m, false) else (m ++ [(k, v)], true)

/-- `map.erase(k)`. -/
def mapErase {A : Type} (m : SMap A) (k : String) : SMap A :=
  m.filter (fun kv => kv.1 ≠ k)

/-- `dest.merge(src)` for `std::map`: each entry of `src` whose key is not
already bound in `dest` is moved into `dest`; conflicting entries of
`src` are left behind (and the C++ code discards them). -/
def mapMerge {A : Type} (dest src : SMap A) : SMap A :=
  src.foldl (fun d kv => (mapInsert d kv.1 kv.2).1) dest

/-- Unique-keys invariant of every `std::map` value. -/
def mapWF {A : Type} (m : SMap A) : Prop := (m.map Prod.fst).Nodup

/-- The two pre-registered options installed by the `optparse` constructor.
The designated initializers leave `default_value` value-initialized,
i.e. the empty string. -/
def initOptions : SMap Params :=
  [("help", ⟨0, "", "Print this message", false⟩),
   ("load", ⟨1, "", "Load settings from configuration file", false⟩)]

/-- `optparse::insert_option_impl_`: `try_emplace` into the registry,
throwing when the name already exists. -/
def insert_option_impl (options : SMap Params) (name : String) (p : Params) :
    Except ParseError (SMap Params) :=
  match mapInsert options name p with
  | (m, true) => .ok m
  | (_, false) => .error (.duplicateRegistryOption name)

/-- `optparse::insert_option`: register a user-defined option. -/
def insert_option (options : SMap Params) (name : String) (nargs : Nat)
    (description : String) (default_value : String) :
    Except ParseError (SMap Params) :=
  insert_option_impl options name
    ⟨nargs, default_value, description, true⟩

/-- The `action_t` enumeration. -/
inductive action_t where
  | store_true : action_t
  | store_false : action_t
deriving DecidableEq, Repr

/-- `optparse::insert_option_boolean`: register a flag whose default
encodes the polarity (`store_true` ↦ `"0"`, `store_false` ↦ `"1"`). -/
def insert_option_boolean (options : SMap Params) (name : String)
    (action : action_t) (description : String) :
    Except ParseError (SMap Params) :=
  insert_option options name 0 description
    (if action = .store_true then "0" else "1")

/-- `optparse::usage` (return value only): `-1` when called with a
non-empty error message, `1` otherwise.  The rendered listing is a side
effect the claims do not mention. -/
def usage (error_message : String) : Int :=
  if error_message.length ≠ 0 then -1 else 1

/-- The characters accepted by `isspace` in the default locale. -/
def isWS (c : Char) : Bool :=
  c = ' ' || c = '\t' || c = '\n' || c = '\x0b' || c = '\x0c' || c = '\r'

/-- `line.erase(remove_if(line.begin(), line.end(), isspace), line.end())`:
remove every whitespace character anywhere in the line. -/
def stripWS (s : String) : String :=
  String.mk (s.toList.filter (fun c => !isWS c))

/-- `line.find(":")` : index of the first colon, if any. -/
def findColon : List Char → Option Nat
  | [] => none
  | c :: rest => if c = ':' then some 0 else (findColon rest).map (· + 1)

/-- The key/value split performed on a stripped configuration line:
`key = line.substr(0, delimiterPos)` and `value = line.substr(delimiterPos + 1)`.
When the line has no colon, `delimiterPos` is `npos`; `substr(0, npos)` is
the whole line and, because `npos + 1` wraps around to `0` in `size_t`
arithmetic, `substr(npos + 1)` is also the whole line. -/
def splitColon (l : List Char) : List Char × List Char :=
  match findColon l with
  | some i => (l.take i, l.drop (i + 1))
  | none => (l, l)

/-- The line loop of `optparse::load`: strip all whitespace, skip comment
and blank lines (`line[0]` of an empty `std::string` reads the terminating
`'\0'`, which is not `'#'`, so the emptiness test still runs), split at
the first colon, validate the key against the registry, and `try_emplace`
into the accumulated mapping. -/
def loadLines (options : SMap Params) :
    List String → SMap String → Except ParseError (SMap String)
  | [], acc => .ok acc
  | line :: rest, acc =>
    let l : List Char := (stripWS line).toList
    if l.headD '\x00' = '#' ∨ l = [] then loadLines options rest acc
    else
      let key : String := String.mk (splitColon l).1
      let value : String := String.mk (splitColon l).2
      match mapFind options key with
      | none => .error (.unknownConfigOption key)
      | some _ =>
        match mapInsert acc key value with
        | (acc', true) => loadLines options rest acc'
        | (_, false) => .error (.duplicateConfigOption key)

/-- `optparse::load`: open the file (throwing on failure) and run the
line loop on an initially empty local map. -/
def load (options : SMap Params) (fs : String → Option (List String))
    (pathname : String) : Except ParseError (SMap String) :=
  match fs pathname with
  | none => .error (.ioError pathname)
  | some lines => loadLines options lines []

/-- The token loop of `optparse::parse`.  `fuel` bounds the number of
iterations; `parse` passes the number of remaining tokens, and every
iteration consumes at least one token, so the `0` case is never reached
from `parse` (see `parseLoop_nil` / `parseLoop_cons`, which restate the
loop without fuel).  The error case carries the member map `values` as it
stands when the exception leaves the loop. -/
def parseLoopFuel (options : SMap Params) :
    Nat → List String → SMap String →
    Except (ParseError × SMap String) (Int × SMap String)
  | 0, _, values => .ok (0, values)
  | _ + 1, [], values => .ok (0, values)
  | fuel + 1, tok :: rest, values =>
    let idx : Nat := (tok.toList.takeWhile (fun c => c = '-')).length
    let key : String := String.mk (tok.toList.drop idx)
    if idx = 0 then .error (.malformedArgument, values)
    else if key = "help" then .ok (usage "", values)
    else
      match mapFind options key with
      | none => .error (.unknownOption key, values)
      | some p =>
        if p.nargs = 0 then
          match mapInsert values key
              (if p.default_value = "0" then "1" else "0") with
          | (values', true) => parseLoopFuel options fuel rest values'
          | (_, false) => .error (.duplicateOption key, values)
        else if rest.length < p.nargs then
          .error (.insufficientArguments, values)
        else
          match mapInsert values key
              (String.intercalate ", " (rest.take p.nargs)) with
          | (values', true) =>
            parseLoopFuel options fuel (rest.drop p.nargs) values'
          | (_, false) => .error (.duplicateOption key, values)

/-- The token loop of `optparse::parse` at its entry point. -/
def parseLoop (options : SMap Params) (args : List String)
    (values : SMap String) :
    Except (ParseError × SMap String) (Int × SMap String) :=
  parseLoopFuel options args.length args values

/-- First registered option that fails the post-parse completeness check:
not `load`/`help`, no entry in the value store, and an empty default. -/
def missingOption (options : SMap Params) (values : SMap String) :
    Option String :=
  (options.find? (fun kv =>
    !(kv.1 == "load") && !(kv.1 == "help") &&
      (mapFind values kv.1).isNone && kv.2.default_value.isEmpty)).map (·.1)

/-- The body of the `try` block of `optparse::parse`: the token loop,
then (when no help was requested) the configuration-file merge and the
completeness check.  `args` is `argv[1..]`; `argv[0]` is only stored as
the program name for the usage text.  The error case carries the member
map `values` at the point of the throw. -/
def parseBody (options : SMap Params) (args : List String)
    (fs : String → Option (List String)) (values0 : SMap String) :
    Except (ParseError × SMap String) (Int × SMap String) :=
  match parseLoop options args values0 with
  | .error ev => .error ev
  | .ok (ierr, values) =>
    if ierr = 0 then
      match
        (match mapFind values "load" with
         | some path =>
           match load options fs path with
           | .error e => Except.error (e, values)
           | .ok loaded => Except.ok (mapErase (mapMerge values loaded) "load")
         | none => Except.ok values : Except (ParseError × SMap String) (SMap String)) with
      | .error ev => .error ev
      | .ok values' =>
        match missingOption options values' with
        | some name => .error (.missingArgument name, values')
        | none => .ok (0, values')
    else .ok (ierr, values)

/-- `optparse::parse`: run the body and catch every exception, converting
it into `usage(e.what())`, whose return value (always `-1`, since every
message is non-empty) becomes the exit code.  The second component is the
member map `values` after the call. -/
def parse (options : SMap Params) (args : List String)
    (fs : String → Option (List String)) (values0 : SMap String) :
    Int × SMap String :=
  match parseBody options args fs values0 with
  | .ok r => r
  | .error (e, v) => (usage (errMsg e), v)

/-- The `split` lambda of `optparse::retrieve`: walk the comma-separated
fields; return field `pos` when it is followed by a comma, and otherwise
fall through to `substr(start, npos)`, the remainder after the last
comma — even when `pos` is past the last field. -/
def splitField : List Char → Nat → List Char
  | s, 0 => if s.any (· = ',') then s.takeWhile (· ≠ ',') else s
  | s, pos + 1 =>
    if s.any (· = ',') then
      splitField ((s.dropWhile (· ≠ ',')).drop 1) pos
    else s

/-- A model of `std::stringstream(arg) >> value` for a scalar type:
a prefix parser plus the `typeid(T).name()` string used in the
`ConversionError` message. -/
structure Extractor (A : Type) where
  extract : List Char → Option A
  typeName : String

/-- Digit run to number, most significant first. -/
def digitsToNat (ds : List Char) : Nat :=
  ds.foldl (fun a c => a * 10 + (c.toNat - '0'.toNat)) 0

/-- The input with the leading whitespace that `operator>>` skips removed. -/
def afterWS (s : List Char) : List Char := s.dropWhile isWS

/-- Whether `operator>>(int)` reads a leading minus sign. -/
def intNeg (s : List Char) : Bool := (afterWS s).head? = some '-'

/-- The digit run `operator>>(int)` consumes: everything after the
whitespace and the optional sign, up to the first non-digit. -/
def intDigits (s : List Char) : List Char :=
  (if (afterWS s).head? = some '-' ∨ (afterWS s).head? = some '+'
   then (afterWS s).drop 1 else afterWS s).takeWhile Char.isDigit

/-- `std::numeric_limits<int>::max()` for the 32-bit `int` the program
instantiates `retrieve` at. -/
def intMax : Int := 2147483647

/-- `std::numeric_limits<int>::min()`. -/
def intMin : Int := -2147483648

/-- The signed value represented by the consumed sign and digit run. -/
def intVal (s : List Char) : Int :=
  if intNeg s then -(digitsToNat (intDigits s) : Int)
  else (digitsToNat (intDigits s) : Int)

/-- `operator>>(int)`: skip leading whitespace, read an optional sign and
a non-empty digit run, ignore the rest of the string (trailing characters
do not set `failbit`).  Extraction fails — `failbit` is set, which is what
`!(ss >> value)` observes — when there is no digit run, or when the
represented value does not fit in `int` (`num_get` reports out-of-range
input as a failure). -/
def extractInt (s : List Char) : Option Int :=
  if (intDigits s).isEmpty then none
  else if intVal s < intMin ∨ intMax < intVal s then none
  else some (intVal s)

/-- `operator>>(bool)` with default flags: read an integer, which must be
`0` or `1`; anything else sets `failbit`. -/
def extractBool (s : List Char) : Option Bool :=
  match extractInt s with
  | some 0 => some false
  | some 1 => some true
  | _ => none

/-- The `int` extractor (`typeid(int).name()` is `"i"` with the Itanium ABI). -/
def intExtractor : Extractor Int := ⟨extractInt, "i"⟩

/-- The `bool` extractor. -/
def boolExtractor : Extractor Bool := ⟨extractBool, "b"⟩

/-- `optparse::retrieve<T, n>`: take the stored raw value, or the
registry default when the store has none and the default is non-empty
(flags re-read their polarity instead of splitting), split out field `n`,
and convert it, throwing `ConversionError` when the extraction fails and
`MissingArgument` when neither a value nor a usable default exists. -/
def retrieve {A : Type} (ex : Extractor A) (values : SMap String)
    (options : SMap Params) (name : String) (n : Nat) :
    Except ParseError A :=
  match mapFind values name with
  | some raw =>
    let argument : String := String.mk (splitField raw.toList n)
    match ex.extract argument.toList with
    | some v => .ok v
    | none => .error (.conversionError argument ex.typeName)
  | none =>
    match mapFind options name with
    | some p =>
      if p.default_value.length ≠ 0 then
        let argument : String :=
          if p.nargs = 0 then
            (if p.default_value = "0" then "0" else "1")
          else String.mk (splitField p.default_value.toList n)
        match ex.extract argument.toList with
        | some v => .ok v
        | none => .error (.conversionError argument ex.typeName)
      else .error (.missingArgument name)
    | none => .error (.missingArgument name)

/-- The entry line `optparse::dump` writes for one registry entry: the
stored value when the store has one, otherwise `key: default` for every
user-defined option (the condition tests only `user_option`; the
init-statement `auto default_value = ...` is just a declaration), and
nothing for an unset built-in. -/
def dumpEntry (values : SMap String) (kv : String × Params) : Option String :=
  match mapFind values kv.1 with
  | some v => some (kv.1 ++ ": " ++ v)
  | none =>
    if kv.2.user_option then some (kv.1 ++ ": " ++ kv.2.default_value)
    else none

/-- The lines `optparse::dump` appends to the file: a blank line, the
timestamp comment (`ts = none` models `strftime` failing, which selects
the generic comment), a blank line, one entry line per registry entry as
above, and the final `std::endl`. -/
def dumpLines (options : SMap Params) (values : SMap String)
    (ts : Option String) : List String :=
  ["" ,
   (match ts with
    | some t => "# Created automaticaly by optparse on " ++ t
    | none => "# Created automaticaly by optparse"),
   ""] ++ options.filterMap (dumpEntry values) ++ [""]

/-- The member map `values` held by the result of the token loop, on both
the normal and the exceptional path. -/
def storeOf (r : Except (ParseError × SMap String) (Int × SMap String)) :
    SMap String :=
  match r with
  | .ok (_, s) => s
  | .error (_, s) => s

/-- Number of commas in a raw value; a raw value with `k` comma-separated
fields has `k - 1` of them. -/
def countComma (s : List Char) : Nat := s.countP (· = ',')

/-- The suffix of a raw value after its last comma (the whole value when
it has no comma): the field the `split` lambda falls through to. -/
def lastField (s : List Char) : List Char :=
  (s.reverse.takeWhile (· ≠ ',')).reverse

/-- A registry name as the configuration-file codec can reproduce it:
non-empty, not introducing a comment, and free of colons and whitespace. -/
def cleanKey (k : String) : Prop :=
  k ≠ "" ∧ k.toList.head? ≠ some '#' ∧
    ∀ c ∈ k.toList, c ≠ ':' ∧ isWS c = false

instance : DecidablePred cleanKey := fun k => by
  unfold cleanKey
  infer_instance

/-- The key/value pairs behind the entry lines of `dump`: the stored value
when the store has one, else the default for a user-defined option. -/
def entryPairs (options : SMap Params) (values : SMap String) : SMap String :=
  options.filterMap (fun kv =>
    match mapFind values kv.1 with
    | some v => some (kv.1, v)
    | none =>
      if kv.2.user_option then some (kv.1, kv.2.default_value) else none)

/-! ## Lemmas about the association-list model of `std::map` -/

theorem mapFind_append {A : Type} (m1 m2 : SMap A) (k : String) :
    mapFind (m1 ++ m2) k =
      (match mapFind m1 k with
       | some v => some v
       | none => mapFind m2 k) := by
  induction m1 with
  | nil => simp [mapFind]
  | cons hd tl ih =>
    obtain ⟨k', v'⟩ := hd
    by_cases h : k = k' <;> simp [mapFind, h, ih]

theorem mapInsert_found {A : Type} {m : SMap A} {k : String} (v : A)
    (h : (mapFind m k).isSome) : mapInsert m k v = (m, false) := by
  simp [mapInsert, h]

theorem mapInsert_not_found {A : Type} {m : SMap A} {k : String} (v : A)
    (h : mapFind m k = none) : mapInsert m k v = (m ++ [(k, v)], true) := by
  simp [mapInsert, h]

theorem mapFind_insert_preserve {A : Type} {m : SMap A} {k' : String} {v : A}
    (k : String) (w : A) (h : mapFind m k' = some v) :
    mapFind (mapInsert m k w).1 k' = some v := by
  unfold mapInsert
  split
  · exact h
  · rw [mapFind_append, h]

theorem mapFind_insert_ne {A : Type} (m : SMap A) {k' k : String} (w : A)
    (h : k' ≠ k) : mapFind (mapInsert m k w).1 k' = mapFind m k' := by
  unfold mapInsert
  split
  · rfl
  · rw [mapFind_append]
    cases hf : mapFind m k' with
    | some v => rfl
    | none => simp [mapFind, h]

theorem mapFind_insert_self {A : Type} (m : SMap A) (k : String) (w : A)
    (h : mapFind m k = none) : mapFind (mapInsert m k w).1 k = some w := by
  rw [mapInsert_not_found w h, mapFind_append, h]
  simp [mapFind]

theorem mapFind_merge {A : Type} (dest src : SMap A) (k : String) :
    mapFind (mapMerge dest src) k =
      (match mapFind dest k with
       | some v => some v
       | none => mapFind src k) := by
  induction src generalizing dest with
  | nil =>
    cases h : mapFind dest k <;> simp [mapMerge, h, mapFind]
  | cons hd tl ih =>
    obtain ⟨k0, v0⟩ := hd
    have hstep : mapMerge dest ((k0, v0) :: tl) =
        mapMerge (mapInsert dest k0 v0).1 tl := rfl
    rw [hstep, ih]
    cases h : mapFind dest k with
    | some v => rw [mapFind_insert_preserve k0 v0 h]
    | none =>
      by_cases hk : k = k0
      · subst hk
        rw [mapFind_insert_self dest k v0 h]
        simp [mapFind]
      · rw [mapFind_insert_ne dest v0 hk, h]
        simp [mapFind, hk]

theorem mapFind_erase_self {A : Type} (m : SMap A) (k : String) :
    mapFind (mapErase m k) k = none := by
  induction m with
  | nil => rfl
  | cons hd tl ih =>
    obtain ⟨k', v'⟩ := hd
    by_cases h : k' = k
    · have hstep : mapErase ((k', v') :: tl) k = mapErase tl k := by
        simp [mapErase, List.filter_cons, h]
      rw [hstep]
      exact ih
    · have hstep : mapErase ((k', v') :: tl) k = (k', v') :: mapErase tl k := by
        simp [mapErase, List.filter_cons, h]
      have hk : k ≠ k' := fun hkk => h hkk.symm
      rw [hstep]
      simp only [mapFind, if_neg hk]
      exact ih

theorem mapFind_erase_ne {A : Type} (m : SMap A) {k' k : String} (h : k' ≠ k) :
    mapFind (mapErase m k) k' = mapFind m k' := by
  induction m with
  | nil => rfl
  | cons hd tl ih =>
    obtain ⟨k0, v0⟩ := hd
    by_cases h0 : k0 = k
    · have hstep : mapErase ((k0, v0) :: tl) k = mapErase tl k := by
        simp [mapErase, List.filter_cons, h0]
      have hk : k' ≠ k0 := fun hkk => h (hkk.trans h0)
      rw [hstep, ih]
      simp [mapFind, hk]
    · have hstep : mapErase ((k0, v0) :: tl) k = (k0, v0) :: mapErase tl k := by
        simp [mapErase, List.filter_cons, h0]
      rw [hstep]
      by_cases h1 : k' = k0
      · simp [mapFind, h1]
      · simp only [mapFind, if_neg h1]
        exact ih

theorem mapFind_isSome_of_mem {A : Type} {m : SMap A} {k : String} {v : A}
    (h : (k, v) ∈ m) : (mapFind m k).isSome := by
  induction m with
  | nil => cases h
  | cons hd tl ih =>
    obtain ⟨k0, v0⟩ := hd
    rcases List.mem_cons.mp h with h | h
    · have h1 : k = k0 := congrArg Prod.fst h
      simp [mapFind, h1]
    · by_cases hk : k = k0
      · simp [mapFind, hk]
      · simp only [mapFind, if_neg hk]
        exact ih h

theorem mapFind_eq_of_mem {A : Type} {m : SMap A} {k : String} {v : A}
    (hwf : mapWF m) (h : (k, v) ∈ m) : mapFind m k = some v := by
  induction m with
  | nil => cases h
  | cons hd tl ih =>
    obtain ⟨k0, v0⟩ := hd
    have hwf2 : k0 ∉ tl.map Prod.fst ∧ (tl.map Prod.fst).Nodup := by
      have := hwf
      simp only [mapWF, List.map_cons, List.nodup_cons] at this
      exact this
    rcases List.mem_cons.mp h with h | h
    · have h1 : k = k0 := congrArg Prod.fst h
      have h2 : v = v0 := congrArg Prod.snd h
      simp [mapFind, h1, h2]
    · have hk : k ≠ k0 := by
        intro hkk
        apply hwf2.1
        rw [← hkk]
        exact List.mem_map.mpr ⟨(k, v), h, rfl⟩
      simp only [mapFind, if_neg hk]
      exact ih hwf2.2 h

theorem mem_value_unique {A : Type} {m : SMap A} {k : String} {a b : A}
    (hwf : mapWF m) (ha : (k, a) ∈ m) (hb : (k, b) ∈ m) : a = b := by
  have h1 := mapFind_eq_of_mem hwf ha
  have h2 := mapFind_eq_of_mem hwf hb
  rw [h1] at h2
  exact Option.some.inj h2

/-! ## Lemmas about character-list scanning -/

theorem takeWhile_append_stop (p : Char → Bool) (u v : List Char)
    (hu : ∀ c ∈ u, p c = true) (hv : ∀ c, v.head? = some c → p c = false) :
    (u ++ v).takeWhile p = u := by
  induction u with
  | nil =>
    cases v with
    | nil => rfl
    | cons c cs => simp [List.takeWhile_cons, hv c rfl]
  | cons c cs ih =>
    rw [List.cons_append, List.takeWhile_cons, if_pos (hu c (by simp)),
      ih (fun d hd => hu d (by simp [hd]))]

theorem dropWhile_append_stop (p : Char → Bool) (u v : List Char)
    (hu : ∀ c ∈ u, p c = true) :
    (u ++ v).dropWhile p = v.dropWhile p := by
  induction u with
  | nil => rfl
  | cons c cs ih =>
    rw [List.cons_append, List.dropWhile_cons, if_pos (hu c (by simp)),
      ih (fun d hd => hu d (by simp [hd]))]

theorem findColon_eq_none (s : List Char) (h : ∀ c ∈ s, c ≠ ':') :
    findColon s = none := by
  induction s with
  | nil => rfl
  | cons c cs ih =>
    simp [findColon, h c (by simp), ih (fun d hd => h d (by simp [hd]))]

theorem findColon_append (u w : List Char) (h : ∀ c ∈ u, c ≠ ':') :
    findColon (u ++ ':' :: w) = some u.length := by
  induction u with
  | nil => rfl
  | cons c cs ih =>
    simp [findColon, h c (by simp), ih (fun d hd => h d (by simp [hd]))]

theorem splitColon_append (u w : List Char) (h : ∀ c ∈ u, c ≠ ':') :
    splitColon (u ++ ':' :: w) = (u, w) := by
  have htake : (u ++ ':' :: w).take u.length = u := List.take_left u (':' :: w)
  have hdrop : (u ++ ':' :: w).drop (u.length + 1) = w := by
    have heq : u ++ ':' :: w = (u ++ [':']) ++ w := by simp
    have hlen : u.length + 1 = (u ++ [':']).length := by simp
    rw [heq, hlen]
    exact List.drop_left (u ++ [':']) w
  unfold splitColon
  rw [findColon_append u w h]
  simp [htake, hdrop]

theorem splitColon_no_colon (l : List Char) (h : ∀ c ∈ l, c ≠ ':') :
    splitColon l = (l, l) := by
  unfold splitColon
  rw [findColon_eq_none l h]

theorem stripWS_toList (s : String) :
    (stripWS s).toList = s.toList.filter (fun c => !isWS c) := rfl

theorem filter_non_ws_eq_self (l : List Char) (h : ∀ c ∈ l, isWS c = false) :
    l.filter (fun c => !isWS c) = l :=
  List.filter_eq_self.mpr (fun c hc => by simp [h c hc])

/-! ## The token loop computed with any sufficient fuel -/

theorem parseLoopFuel_mono (options : SMap Params) :
    ∀ f1 f2 : Nat, ∀ (args : List String) (values : SMap String),
      args.length ≤ f1 → args.length ≤ f2 →
      parseLoopFuel options f1 args values = parseLoopFuel options f2 args values := by
  intro f1
  induction f1 with
  | zero =>
    intro f2 args values h1 _
    have : args = [] := List.eq_nil_of_length_eq_zero (Nat.le_zero.mp h1)
    subst this
    cases f2 <;> rfl
  | succ f1 ih =>
    intro f2 args values h1 h2
    cases args with
    | nil => cases f2 <;> rfl
    | cons tok rest =>
      cases f2 with
      | zero => simp at h2
      | succ f2' =>
        have hr1 : rest.length ≤ f1 := by
          simpa using Nat.succ_le_succ_iff.mp h1
        have hr2 : rest.length ≤ f2' := by
          simpa using Nat.succ_le_succ_iff.mp h2
        simp only [parseLoopFuel]
        split
        · rfl
        · split
          · rfl
          · split
            · rfl
            · split
              · split
                · exact ih f2' rest _ hr1 hr2
                · rfl
              · split
                · rfl
                · split
                  · apply ih
                    · exact Nat.le_trans (by simp [List.length_drop]) hr1
                    · exact Nat.le_trans (by simp [List.length_drop]) hr2
                  · rfl

/-- The empty-token-list equation of the C++ loop. -/
theorem parseLoop_nil (options : SMap Params) (values : SMap String) :
    parseLoop options [] values = .ok (0, values) := rfl

/-- The one-step unfolding of the C++ token loop, fuel-free: `parse`'s
loop behaves exactly like the `for` loop of `optparse::parse`. -/
theorem parseLoop_cons (options : SMap Params) (tok : String)
    (rest : List String) (values : SMap String) :
    parseLoop options (tok :: rest) values =
      (let idx : Nat := (tok.toList.takeWhile (fun c => c = '-')).length
       let key : String := String.mk (tok.toList.drop idx)
       if idx = 0 then .error (.malformedArgument, values)
       else if key = "help" then .ok (usage "", values)
       else
         match mapFind options key with
         | none => .error (.unknownOption key, values)
         | some p =>
           if p.nargs = 0 then
             match mapInsert values key
                 (if p.default_value = "0" then "1" else "0") with
             | (values', true) => parseLoop options rest values'
             | (_, false) => .error (.duplicateOption key, values)
           else if rest.length < p.nargs then
             .error (.insufficientArguments, values)
           else
             match mapInsert values key
                 (String.intercalate ", " (rest.take p.nargs)) with
             | (values', true) => parseLoop options (rest.drop p.nargs) values'
             | (_, false) => .error (.duplicateOption key, values)) := by
  show parseLoopFuel options (rest.length + 1) (tok :: rest) values = _
  simp only [parseLoopFuel, parseLoop]
  split
  · rfl
  · split
    · rfl
    · split
      · rfl
      · split
        · split
          · rfl
          · rfl
        · split
          · rfl
          · split
            · apply parseLoopFuel_mono
              · simp [List.length_drop]
              · exact Nat.le_refl _
            · rfl

theorem parseLoopFuel_code (options : SMap Params) :
    ∀ (fuel : Nat) (args : List String) (values : SMap String)
      (i : Int) (s : SMap String),
      parseLoopFuel options fuel args values = .ok (i, s) → i = 0 ∨ i = 1 := by
  intro fuel
  induction fuel with
  | zero =>
    intro args values i s h
    simp only [parseLoopFuel] at h
    injection h with h1
    exact Or.inl (congrArg Prod.fst h1).symm
  | succ fuel ih =>
    intro args values i s h
    cases args with
    | nil =>
      simp only [parseLoopFuel] at h
      injection h with h1
      exact Or.inl (congrArg Prod.fst h1).symm
    | cons tok rest =>
      simp only [parseLoopFuel] at h
      split at h
      · cases h
      · split at h
        · injection h with h1
          exact Or.inr (congrArg Prod.fst h1).symm
        · split at h
          · cases h
          · split at h
            · split at h
              · exact ih _ _ _ _ h
              · cases h
            · split at h
              · cases h
              · split at h
                · exact ih _ _ _ _ h
                · cases h

theorem parseLoopFuel_preserve (options : SMap Params) (k v : String) :
    ∀ (fuel : Nat) (args : List String) (values : SMap String),
      mapFind values k = some v →
      mapFind (storeOf (parseLoopFuel options fuel args values)) k = some v := by
  intro fuel
  induction fuel with
  | zero => intro args values h; exact h
  | succ fuel ih =>
    intro args values h
    cases args with
    | nil => exact h
    | cons tok rest =>
      simp only [parseLoopFuel]
      split
      · exact h
      · split
        · exact h
        · split
          · exact h
          · split
            · split
              · next values' heq =>
                apply ih
                have : values' = (mapInsert values _ _).1 := congrArg Prod.fst heq.symm
                rw [this]
                exact mapFind_insert_preserve _ _ h
              · exact h
            · split
              · exact h
              · split
                · next values' heq =>
                  apply ih
                  have : values' = (mapInsert values _ _).1 := congrArg Prod.fst heq.symm
                  rw [this]
                  exact mapFind_insert_preserve _ _ h
                · exact h

theorem parseLoopFuel_flag (options : SMap Params) {name defv desc : String}
    (hopt : mapFind options name = some ⟨0, defv, desc, true⟩) :
    ∀ (fuel : Nat) (args : List String) (values : SMap String),
      (∀ w, mapFind values name = some w → w = (if defv = "0" then "1" else "0")) →
      ∀ w, mapFind (storeOf (parseLoopFuel options fuel args values)) name = some w →
        w = (if defv = "0" then "1" else "0") := by
  intro fuel
  induction fuel with
  | zero => intro args values hinv w hw; exact hinv w hw
  | succ fuel ih =>
    intro args values hinv w hw
    cases args with
    | nil => exact hinv w hw
    | cons tok rest =>
      simp only [parseLoopFuel] at hw
      split at hw
      · exact hinv w hw
      · split at hw
        · exact hinv w hw
        · split at hw
          · exact hinv w hw
          · next p hp =>
            split at hw
            · split at hw
              · next values' heq =>
                refine ih rest values' ?_ w hw
                intro w' hw'
                by_cases hk : String.mk (tok.toList.drop
                    ((tok.toList.takeWhile (fun c => c = '-')).length)) = name
                · rw [hk] at hp heq
                  have hpe : p = ⟨0, defv, desc, true⟩ := by
                    rw [hp] at hopt
                    exact Option.some.inj hopt
                  by_cases hvn : (mapFind values name).isSome
                  · rw [mapInsert_found _ hvn] at heq
                    have : values' = values := congrArg Prod.fst heq.symm
                    rw [this] at hw'
                    exact hinv w' hw'
                  · have hnone : mapFind values name = none :=
                      Option.not_isSome_iff_eq_none.mp hvn
                    have hself := mapFind_insert_self values name
                      (if p.default_value = "0" then "1" else "0") hnone
                    have hv' : values' = (mapInsert values name
                        (if p.default_value = "0" then "1" else "0")).1 :=
                      congrArg Prod.fst heq.symm
                    rw [hv'] at hw'
                    rw [hself] at hw'
                    have := Option.some.inj hw'
                    rw [← this, hpe]
                · have hv' : values' = (mapInsert values _ _).1 :=
                    congrArg Prod.fst heq.symm
                  rw [hv', mapFind_insert_ne _ _ (fun hkk => hk hkk.symm)] at hw'
                  exact hinv w' hw'
              · exact hinv w hw
            · rename_i hn0
              split at hw
              · exact hinv w hw
              · split at hw
                · next values' heq =>
                  refine ih _ values' ?_ w hw
                  intro w' hw'
                  by_cases hk : String.mk (tok.toList.drop
                      ((tok.toList.takeWhile (fun c => c = '-')).length)) = name
                  · rw [hk] at hp
                    rw [hp] at hopt
                    have hpe : p = ⟨0, defv, desc, true⟩ := Option.some.inj hopt
                    exact absurd (by rw [hpe]) hn0
                  · have hv' : values' = (mapInsert values _ _).1 :=
                      congrArg Prod.fst heq.symm
                    rw [hv', mapFind_insert_ne _ _ (fun hkk => hk hkk.symm)] at hw'
                    exact hinv w' hw'
                · exact hinv w hw

/-! ## The catch-all of `parse` -/

theorem append_length_ne_zero (a b : String) (h : a.length ≠ 0) :
    (a ++ b).length ≠ 0 := by
  rw [String.length_append]
  omega

theorem errMsg_length_ne_zero (e : ParseError) : (errMsg e).length ≠ 0 := by
  cases e <;>
    first
      | decide
      | exact append_length_ne_zero _ _ (by decide)
      | exact append_length_ne_zero _ _ (append_length_ne_zero _ _ (by decide))
      | exact append_length_ne_zero _ _
          (append_length_ne_zero _ _ (append_length_ne_zero _ _ (by decide)))

theorem usage_errMsg (e : ParseError) : usage (errMsg e) = -1 := by
  unfold usage
  rw [if_pos (errMsg_length_ne_zero e)]

theorem usage_empty : usage "" = 1 := rfl

theorem parse_snd_eq (options : SMap Params) (args : List String)
    (fs : String → Option (List String)) (values0 : SMap String) :
    (parse options args fs values0).2 = storeOf (parseBody options args fs values0) := by
  unfold parse storeOf
  cases parseBody options args fs values0 with
  | ok r => rfl
  | error ev =>
    obtain ⟨e, v⟩ := ev
    rfl

theorem parseBody_code (options : SMap Params) (args : List String)
    (fs : String → Option (List String)) (values0 : SMap String)
    (i : Int) (s : SMap String)
    (h : parseBody options args fs values0 = .ok (i, s)) : i = 0 ∨ i = 1 := by
  unfold parseBody at h
  cases hl : parseLoop options args values0 with
  | error ev => rw [hl] at h; cases h
  | ok r =>
    obtain ⟨ierr, values⟩ := r
    rw [hl] at h
    dsimp only at h
    by_cases hi : ierr = 0
    · rw [if_pos hi] at h
      split at h
      · cases h
      · split at h
        · cases h
        · injection h with h1
          exact Or.inl (congrArg Prod.fst h1).symm
    · rw [if_neg hi] at h
      injection h with h1
      have : ierr = i := congrArg Prod.fst h1
      rw [← this]
      exact parseLoopFuel_code options args.length args values0 ierr values hl

theorem parseBody_preserve (options : SMap Params) (args : List String)
    (fs : String → Option (List String)) {values0 : SMap String} {k v : String}
    (hk : k ≠ "load") (h : mapFind values0 k = some v) :
    mapFind (storeOf (parseBody options args fs values0)) k = some v := by
  have hloop : mapFind (storeOf (parseLoop options args values0)) k = some v :=
    parseLoopFuel_preserve options k v args.length args values0 h
  unfold parseBody
  cases hl : parseLoop options args values0 with
  | error ev =>
    rw [hl] at hloop
    exact hloop
  | ok r =>
    obtain ⟨ierr, values⟩ := r
    rw [hl] at hloop
    have hval : mapFind values k = some v := hloop
    dsimp only
    by_cases hi : ierr = 0
    · rw [if_pos hi]
      cases hfl : mapFind values "load" with
      | none =>
        dsimp only
        cases hmiss : missingOption options values <;> simp [storeOf, hmiss, hval]
      | some path =>
        dsimp only
        cases hld : load options fs path with
        | error e => simp [storeOf, hval]
        | ok loaded =>
          have hval' :
              mapFind (mapErase (mapMerge values loaded) "load") k = some v := by
            rw [mapFind_erase_ne _ hk, mapFind_merge, hval]
          dsimp only
          cases hmiss : missingOption options (mapErase (mapMerge values loaded) "load") <;>
            simp [storeOf, hmiss, hval']
    · rw [if_neg hi]
      exact hval

/-- C1: every error raised during any internal step of `parse` (malformed
token, unknown option, insufficient values, duplicate option, config-file
load failure, missing required argument) is caught inside `parse` and
converted into a usage report with exit code `-1`; `parse` is total and
only ever returns `-1`, `0` or `1`, so no exception reaches the caller. -/
theorem spec_C1_parse_catches_all_errors (options : SMap Params)
    (args : List String) (fs : String → Option (List String))
    (values0 : SMap String) :
    ((parse options args fs values0).1 = -1 ∨
      (parse options args fs values0).1 = 0 ∨
      (parse options args fs values0).1 = 1) ∧
    (∀ e v, parseBody options args fs values0 = .error (e, v) →
      parse options args fs values0 = (-1, v)) := by
  constructor
  · cases hb : parseBody options args fs values0 with
    | error ev =>
      obtain ⟨e, v⟩ := ev
      left
      simp [parse, hb, usage_errMsg]
    | ok r =>
      obtain ⟨i, s⟩ := r
      right
      rcases parseBody_code options args fs values0 i s hb with h | h <;>
        simp [parse, hb, h]
  · intro e v h
    simp [parse, h, usage_errMsg]

/-- Witness for C1 at a concrete input: the token `"x"` has no leading
dash, which raises `MalformedArgument` inside the body, and `parse`
converts it into exit code `-1`. -/
theorem spec_C1_witness :
    parseBody initOptions ["x"] (fun _ => none) [] = .error (.malformedArgument, []) ∧
      parse initOptions ["x"] (fun _ => none) [] = (-1, []) :=
  ⟨rfl, (spec_C1_parse_catches_all_errors initOptions ["x"] (fun _ => none) []).2
    .malformedArgument [] rfl⟩

/-- C2: when an option name is set by the command line and also appears in
the configuration file named by `--load`, the value store after `parse`
holds the command-line value (`std::map::merge` never replaces an existing
key), and the `load` entry itself is erased after the merge. -/
theorem spec_C2_cmdline_precedence {options : SMap Params} {args : List String}
    {fs : String → Option (List String)} {values0 s m : SMap String}
    {path k v w : String}
    (hloop : parseLoop options args values0 = .ok (0, s))
    (hpath : mapFind s "load" = some path)
    (hload : load options fs path = .ok m)
    (hk : k ≠ "load")
    (hcl : mapFind s k = some v)
    (hfile : mapFind m k = some w) :
    mapFind (parse options args fs values0).2 k = some v ∧
      mapFind (parse options args fs values0).2 "load" = none := by
  have hval' : mapFind (mapErase (mapMerge s m) "load") k = some v := by
    rw [mapFind_erase_ne _ hk, mapFind_merge, hcl]
  have hload' : mapFind (mapErase (mapMerge s m) "load") "load" = none :=
    mapFind_erase_self _ "load"
  have hbody : parseBody options args fs values0 =
      (match missingOption options (mapErase (mapMerge s m) "load") with
       | some name =>
         .error (.missingArgument name, mapErase (mapMerge s m) "load")
       | none => .ok (0, mapErase (mapMerge s m) "load")) := by
    unfold parseBody
    rw [hloop]
    dsimp only
    rw [if_pos rfl, hpath]
    dsimp only
    rw [hload]
  rw [parse_snd_eq, hbody]
  cases hmiss : missingOption options (mapErase (mapMerge s m) "load") <;>
    exact ⟨by simp [storeOf, hmiss, hval'], by simp [storeOf, hmiss, hload']⟩

/-- Witness for C2: `--a 1 --load f` with a file that also sets `a`:
the final store keeps the command-line value `1` and has no `load` key. -/
theorem spec_C2_witness :
    mapFind (parse
      [("help", ⟨0, "", "Print this message", false⟩),
       ("load", ⟨1, "", "Load settings from configuration file", false⟩),
       ("a", ⟨1, "", "", true⟩)]
      ["--a", "1", "--load", "f"]
      (fun p => if p = "f" then some ["a:2"] else none) []).2 "a" = some "1" ∧
    mapFind (parse
      [("help", ⟨0, "", "Print this message", false⟩),
       ("load", ⟨1, "", "Load settings from configuration file", false⟩),
       ("a", ⟨1, "", "", true⟩)]
      ["--a", "1", "--load", "f"]
      (fun p => if p = "f" then some ["a:2"] else none) []).2 "load" = none :=
  spec_C2_cmdline_precedence
    (show parseLoop
      [("help", ⟨0, "", "Print this message", false⟩),
       ("load", ⟨1, "", "Load settings from configuration file", false⟩),
       ("a", ⟨1, "", "", true⟩)]
      ["--a", "1", "--load", "f"] [] = .ok (0, [("a", "1"), ("load", "f")]) from rfl)
    (show mapFind [("a", "1"), ("load", "f")] "load" = some "f" from rfl)
    (show load
      [("help", ⟨0, "", "Print this message", false⟩),
       ("load", ⟨1, "", "Load settings from configuration file", false⟩),
       ("a", ⟨1, "", "", true⟩)]
      (fun p => if p = "f" then some ["a:2"] else none) "f" = .ok [("a", "2")] from rfl)
    (show "a" ≠ "load" by decide)
    (show mapFind [("a", "1"), ("load", "f")] "a" = some "1" from rfl)
    (show mapFind [("a", "2")] "a" = some "2" from rfl)

/-- C6 is refuted: `parse` does not clear the member map `values`, so a
second `parse` call on the same instance keeps the entries of the first.
Concretely: a first call `--a 1` produces the store `[("a", "1")]`; a
second call with an empty command line on that same instance returns `0`
and the store still holds `("a", "1")`, although the same empty command
line on a fresh instance produces an empty store. -/
theorem spec_C6_counterexample :
    parse [("help", ⟨0, "", "Print this message", false⟩),
           ("load", ⟨1, "", "Load settings from configuration file", false⟩),
           ("a", ⟨1, "x", "", true⟩)]
        ["--a", "1"] (fun _ => none) [] = (0, [("a", "1")]) ∧
    parse [("help", ⟨0, "", "Print this message", false⟩),
           ("load", ⟨1, "", "Load settings from configuration file", false⟩),
           ("a", ⟨1, "x", "", true⟩)]
        [] (fun _ => none) [("a", "1")] = (0, [("a", "1")]) ∧
    parse [("help", ⟨0, "", "Print this message", false⟩),
           ("load", ⟨1, "", "Load settings from configuration file", false⟩),
           ("a", ⟨1, "x", "", true⟩)]
        [] (fun _ => none) [] = (0, []) :=
  ⟨rfl, rfl, rfl⟩

/-- C6 amended: the value store is *not* created fresh by each `parse`
invocation; it is the member map of the instance, created empty at
construction only, and `parse` only ever adds entries to it (and erases
`load`), so every pre-existing entry other than `load` — e.g. one left by
an earlier `parse` call on the same instance — is still present after the
call. -/
theorem spec_C6_amended_store_persists {options : SMap Params}
    {args : List String} {fs : String → Option (List String)}
    {values0 : SMap String} {k v : String}
    (hk : k ≠ "load") (hfind : mapFind values0 k = some v) :
    mapFind (parse options args fs values0).2 k = some v := by
  rw [parse_snd_eq]
  exact parseBody_preserve options args fs hk hfind

/-- Witness for the amended C6: an entry `("a", "1")` present before the
call survives a `parse` with an empty command line. -/
theorem spec_C6_amended_witness :
    mapFind (parse initOptions [] (fun _ => none) [("a", "1")]).2 "a" = some "1" :=
  spec_C6_amended_store_persists (by decide) rfl

/-- C10: after every `parse` call that returns `0`, the value store has no
entry for `"load"` (it is erased after the merge, and the built-in `load`
option has an empty default), so a subsequent `retrieve` of `"load"` — for
any target type — fails with `MissingArgument`. -/
theorem spec_C10_load_absent {options : SMap Params} {args : List String}
    {fs : String → Option (List String)} {values0 vals : SMap String}
    {desc : String}
    (hL : mapFind options "load" = some ⟨1, "", desc, false⟩)
    (hp : parse options args fs values0 = (0, vals)) :
    mapFind vals "load" = none ∧
      ∀ (A : Type) (ex : Extractor A) (n : Nat),
        retrieve ex vals options "load" n = .error (.missingArgument "load") := by
  have hb : parseBody options args fs values0 = .ok (0, vals) := by
    unfold parse at hp
    cases hbb : parseBody options args fs values0 with
    | error ev =>
      obtain ⟨e, v⟩ := ev
      rw [hbb] at hp
      have : usage (errMsg e) = 0 := congrArg Prod.fst hp
      rw [usage_errMsg] at this
      cases this
    | ok r =>
      rw [hbb] at hp
      dsimp only at hp
      rw [hp]
  have hnone : mapFind vals "load" = none := by
    unfold parseBody at hb
    cases hl : parseLoop options args values0 with
    | error ev => rw [hl] at hb; cases hb
    | ok r =>
      obtain ⟨ierr, values⟩ := r
      rw [hl] at hb
      dsimp only at hb
      by_cases hi : ierr = 0
      · rw [if_pos hi] at hb
        cases hfl : mapFind values "load" with
        | none =>
          rw [hfl] at hb
          dsimp only at hb
          split at hb
          · cases hb
          · injection hb with h1
            injection h1 with h2 h3
            rw [← h3]
            exact hfl
        | some path =>
          rw [hfl] at hb
          dsimp only at hb
          cases hld : load options fs path with
          | error e => rw [hld] at hb; cases hb
          | ok loaded =>
            rw [hld] at hb
            dsimp only at hb
            split at hb
            · cases hb
            · injection hb with h1
              injection h1 with h2 h3
              rw [← h3]
              exact mapFind_erase_self _ "load"
      · rw [if_neg hi] at hb
        injection hb with h1
        exact absurd (congrArg Prod.fst h1) hi
  refine ⟨hnone, fun A ex n => ?_⟩
  unfold retrieve
  rw [hnone, hL]
  simp

/-- Witness for C10: on an empty command line the builtin registry parses
to `(0, [])`, and retrieving `"load"` fails with `MissingArgument`. -/
theorem spec_C10_witness :
    mapFind ([] : SMap String) "load" = none ∧
      retrieve intExtractor [] initOptions "load" 0 =
        .error (.missingArgument "load") := by
  have h := spec_C10_load_absent
    (show mapFind initOptions "load" =
      some ⟨1, "", "Load settings from configuration file", false⟩ from rfl)
    (show parse initOptions [] (fun _ => none) [] = (0, []) from rfl)
  exact ⟨h.1, h.2 Int intExtractor 0⟩

/-! ## Flag polarity (C7) -/

theorem mk_toList (s : String) : String.mk s.toList = s := rfl

theorem insert_option_impl_ok {m m' : SMap Params} {k : String} {p : Params}
    (h : insert_option_impl m k p = .ok m') :
    mapFind m k = none ∧ mapFind m' k = some p := by
  unfold insert_option_impl mapInsert at h
  by_cases hf : (mapFind m k).isSome
  · rw [if_pos hf] at h
    cases h
  · rw [if_neg hf] at h
    dsimp only at h
    injection h with h1
    have hnone : mapFind m k = none := Option.not_isSome_iff_eq_none.mp hf
    refine ⟨hnone, ?_⟩
    rw [← h1, mapFind_append, hnone]
    simp [mapFind]

theorem parseBody_preserve_loop (options : SMap Params) (args : List String)
    (fs : String → Option (List String)) {values0 s : SMap String}
    {ierr : Int} {k v : String}
    (hl : parseLoop options args values0 = .ok (ierr, s))
    (hk : k ≠ "load") (h : mapFind s k = some v) :
    mapFind (storeOf (parseBody options args fs values0)) k = some v := by
  unfold parseBody
  rw [hl]
  dsimp only
  by_cases hi : ierr = 0
  · rw [if_pos hi]
    cases hfl : mapFind s "load" with
    | none =>
      dsimp only
      cases hmiss : missingOption options s <;> simp [storeOf, hmiss, h]
    | some path =>
      dsimp only
      cases hld : load options fs path with
      | error e => simp [storeOf, h]
      | ok loaded =>
        have hval' : mapFind (mapErase (mapMerge s loaded) "load") k = some v := by
          rw [mapFind_erase_ne _ hk, mapFind_merge, h]
        dsimp only
        cases hmiss : missingOption options (mapErase (mapMerge s loaded) "load") <;>
          simp [storeOf, hmiss, hval']
  · rw [if_neg hi]
    exact h

/-- C7: a flag registered through `insert_option_boolean`, looked up with
`retrieve<bool>`, yields its default polarity when it is absent from the
parsed command line (`store_true` ⇒ `false`, `store_false` ⇒ `true`) and
the opposite when a token for it was consumed by the token loop. -/
theorem spec_C7_flag_polarity {options0 options : SMap Params}
    {name desc : String} {act : action_t}
    {args : List String} {fs : String → Option (List String)}
    {c : Int} {vals : SMap String}
    (hreg : insert_option_boolean options0 name act desc = .ok options)
    (hname : name ≠ "load")
    (hparse : parse options args fs [] = (c, vals)) :
    (mapFind vals name = none →
      retrieve boolExtractor vals options name 0 =
        .ok (match act with | .store_true => false | .store_false => true)) ∧
    (∀ c0 s, parseLoop options args [] = .ok (c0, s) →
      (mapFind s name).isSome →
      retrieve boolExtractor vals options name 0 =
        .ok (match act with | .store_true => true | .store_false => false)) := by
  have hopt : mapFind options name =
      some ⟨0, if act = .store_true then "0" else "1", desc, true⟩ :=
    (insert_option_impl_ok hreg).2
  have hvals : vals = (parse options args fs []).2 := (congrArg Prod.snd hparse).symm
  constructor
  · intro habs
    unfold retrieve
    rw [habs, hopt]
    cases act with
    | store_true => rfl
    | store_false => rfl
  · intro c0 s hpl hsome
    obtain ⟨w, hw⟩ := Option.isSome_iff_exists.mp hsome
    have hwv : w = (if (if act = .store_true then "0" else "1") = "0"
        then "1" else "0") := by
      refine parseLoopFuel_flag options hopt args.length args [] ?_ w ?_
      · intro w' hw'
        cases hw'
      · show mapFind (storeOf (parseLoop options args [])) name = some w
        rw [hpl]
        exact hw
    have hfound : mapFind vals name = some w := by
      rw [hvals, parse_snd_eq]
      exact parseBody_preserve_loop options args fs hpl hname hw
    unfold retrieve
    rw [hfound]
    cases act with
    | store_true =>
      rw [show w = "1" from hwv]
      rfl
    | store_false =>
      rw [show w = "0" from hwv]
      rfl

/-- Witness for C7: `verbose` registered with `store_true` retrieves as
`false` after `parse ["prog"]` and as `true` after `parse ["prog",
"--verbose"]`. -/
theorem spec_C7_witness :
    retrieve boolExtractor []
      [("help", ⟨0, "", "Print this message", false⟩),
       ("load", ⟨1, "", "Load settings from configuration file", false⟩),
       ("verbose", ⟨0, "0", "", true⟩)] "verbose" 0 = .ok false ∧
    retrieve boolExtractor [("verbose", "1")]
      [("help", ⟨0, "", "Print this message", false⟩),
       ("load", ⟨1, "", "Load settings from configuration file", false⟩),
       ("verbose", ⟨0, "0", "", true⟩)] "verbose" 0 = .ok true := by
  constructor
  · exact (spec_C7_flag_polarity
      (show insert_option_boolean initOptions "verbose" .store_true "" = .ok
        [("help", ⟨0, "", "Print this message", false⟩),
         ("load", ⟨1, "", "Load settings from configuration file", false⟩),
         ("verbose", ⟨0, "0", "", true⟩)] from rfl)
      (show "verbose" ≠ "load" by decide)
      (show parse
        [("help", ⟨0, "", "Print this message", false⟩),
         ("load", ⟨1, "", "Load settings from configuration file", false⟩),
         ("verbose", ⟨0, "0", "", true⟩)] [] (fun _ => none) [] = (0, []) from rfl)).1
      rfl
  · exact (spec_C7_flag_polarity
      (show insert_option_boolean initOptions "verbose" .store_true "" = .ok
        [("help", ⟨0, "", "Print this message", false⟩),
         ("load", ⟨1, "", "Load settings from configuration file", false⟩),
         ("verbose", ⟨0, "0", "", true⟩)] from rfl)
      (show "verbose" ≠ "load" by decide)
      (show parse
        [("help", ⟨0, "", "Print this message", false⟩),
         ("load", ⟨1, "", "Load settings from configuration file", false⟩),
         ("verbose", ⟨0, "0", "", true⟩)] ["--verbose"] (fun _ => none) []
        = (0, [("verbose", "1")]) from rfl)).2
      0 [("verbose", "1")] rfl rfl

/-! ## Colonless configuration lines (C9) -/

/-- C9: a non-empty, non-comment stripped configuration line with no `:`
splits into itself as both key and value (since `npos + 1` wraps to `0`):
when the whole line is a registered option name, `load` maps that name to
itself; otherwise `load` fails with an unknown-option error. -/
theorem spec_C9_colonless_line {options : SMap Params}
    {fs : String → Option (List String)} {path line : String}
    (hfs : fs path = some [line])
    (hne : stripWS line ≠ "")
    (hnc : (stripWS line).toList.head? ≠ some '#')
    (hcolon : ∀ c ∈ (stripWS line).toList, c ≠ ':') :
    splitColon (stripWS line).toList =
      ((stripWS line).toList, (stripWS line).toList) ∧
    (∀ p, mapFind options (stripWS line) = some p →
      load options fs path = .ok [(stripWS line, stripWS line)]) ∧
    (mapFind options (stripWS line) = none →
      load options fs path = .error (.unknownConfigOption (stripWS line))) := by
  have hsplit := splitColon_no_colon (stripWS line).toList hcolon
  have hl : (stripWS line).toList ≠ [] := by
    intro hE
    apply hne
    have : stripWS line = String.mk [] := by rw [← hE, mk_toList]
    rw [this]
  have hcond : ¬((stripWS line).toList.headD '\x00' = '#' ∨
      (stripWS line).toList = []) := by
    intro hOr
    rcases hOr with hH | hE
    · cases hL : (stripWS line).toList with
      | nil => exact hl hL
      | cons ch cs =>
        rw [hL] at hH hnc
        exact hnc (by rw [show ch = '#' from hH]; rfl)
    · exact hl hE
  have hstep : ∀ acc, loadLines options [line] acc =
      (match mapFind options (stripWS line) with
       | none => .error (.unknownConfigOption (stripWS line))
       | some _ =>
         match mapInsert acc (stripWS line) (stripWS line) with
         | (acc', true) => .ok acc'
         | (_, false) => .error (.duplicateConfigOption (stripWS line))) := by
    intro acc
    unfold loadLines
    rw [if_neg hcond]
    dsimp only
    rw [hsplit]
    dsimp only
    rw [mk_toList]
    cases hp : mapFind options (stripWS line) with
    | none => rfl
    | some p =>
      dsimp only
      cases hins : mapInsert acc (stripWS line) (stripWS line) with
      | mk acc' b =>
        cases b <;> rfl
  refine ⟨hsplit, fun p hp => ?_, fun hp => ?_⟩
  · unfold load
    rw [hfs]
    dsimp only
    rw [hstep, hp]
    have : mapInsert ([] : SMap String) (stripWS line) (stripWS line) =
        ([(stripWS line, stripWS line)], true) :=
      mapInsert_not_found _ rfl
    rw [this]
  · unfold load
    rw [hfs]
    dsimp only
    rw [hstep, hp]

/-- Witness for C9: the colonless line `"load"` is a registered name and
loads as `load ↦ load`; the colonless line `"zzz"` is unknown. -/
theorem spec_C9_witness :
    load initOptions (fun _ => some ["load"]) "p" = .ok [("load", "load")] ∧
    load initOptions (fun _ => some ["zzz"]) "p" =
      .error (.unknownConfigOption "zzz") := by
  constructor
  · exact (spec_C9_colonless_line
      (show (fun _ => some ["load"] : String → Option (List String)) "p"
        = some ["load"] from rfl)
      (show stripWS "load" ≠ "" by decide)
      (show (stripWS "load").toList.head? ≠ some '#' by decide)
      (show ∀ c ∈ (stripWS "load").toList, c ≠ ':' by decide)).2.1
      ⟨1, "", "Load settings from configuration file", false⟩ rfl
  · exact (spec_C9_colonless_line
      (show (fun _ => some ["zzz"] : String → Option (List String)) "p"
        = some ["zzz"] from rfl)
      (show stripWS "zzz" ≠ "" by decide)
      (show (stripWS "zzz").toList.head? ≠ some '#' by decide)
      (show ∀ c ∈ (stripWS "zzz").toList, c ≠ ':' by decide)).2.2 rfl

/-! ## Field selection with an out-of-range index (C3) -/

theorem no_comma_of_countComma_zero {s : List Char}
    (h : countComma s = 0) : ∀ c ∈ s, c ≠ ',' := by
  intro c hc he
  have := (List.countP_eq_zero.mp h) c hc
  simp [he] at this

theorem any_comma_eq_false {s : List Char} (h : ∀ c ∈ s, c ≠ ',') :
    s.any (· = ',') = false := by
  rw [← Bool.not_eq_true, List.any_eq_true]
  rintro ⟨c, hc, he⟩
  exact h c hc (by simpa using he)

theorem lastField_no_comma {s : List Char} (h : ∀ c ∈ s, c ≠ ',') :
    lastField s = s := by
  unfold lastField
  have hall : ∀ c ∈ s.reverse, (fun c => decide (c ≠ ',')) c = true := by
    intro c hc
    simp [h c (List.mem_reverse.mp hc)]
  have := takeWhile_append_stop (fun c => decide (c ≠ ',')) s.reverse []
    hall (by intro c hc; cases hc)
  rw [List.append_nil] at this
  rw [this, List.reverse_reverse]

theorem takeWhile_append_absorb (p : Char → Bool) (u X : List Char)
    (hX : ∀ c, X.head? = some c → p c = false) :
    (u ++ X).takeWhile p = u.takeWhile p := by
  induction u with
  | nil =>
    cases X with
    | nil => rfl
    | cons c cs => simp [List.takeWhile_cons, hX c rfl]
  | cons a u' ih =>
    rw [List.cons_append, List.takeWhile_cons, List.takeWhile_cons]
    cases hp : p a
    · rfl
    · rw [ih]

theorem dropWhile_head_not (p : Char → Bool) (l : List Char) :
    ∀ c, (l.dropWhile p).head? = some c → p c = false := by
  induction l with
  | nil => intro c hc; cases hc
  | cons a l' ih =>
    intro c hc
    rw [List.dropWhile_cons] at hc
    by_cases hp : p a = true
    · rw [if_pos hp] at hc
      exact ih c hc
    · rw [if_neg hp] at hc
      injection hc with hc1
      rw [← hc1]
      exact Bool.not_eq_true _ |>.mp hp

theorem comma_decomposition {s : List Char} (h : s.any (· = ',') = true) :
    s = s.takeWhile (· ≠ ',') ++
      ',' :: (s.dropWhile (· ≠ ',')).drop 1 := by
  have h1 := List.takeWhile_append_dropWhile (p := fun c => decide (c ≠ ','))
    (l := s)
  cases hd : s.dropWhile (· ≠ ',') with
  | nil =>
    exfalso
    obtain ⟨c, hcmem, hceq⟩ := List.any_eq_true.mp h
    have hcc : c = ',' := by simpa using hceq
    have hs : s.takeWhile (· ≠ ',') = s := by
      rw [hd, List.append_nil] at h1
      exact h1
    have hcmem' : c ∈ s.takeWhile (fun c => decide (c ≠ ',')) := by
      rw [hs]
      exact hcmem
    have hne := List.mem_takeWhile_imp hcmem'
    rw [hcc] at hne
    simp at hne
  | cons d rest =>
    have hdnot : (fun c => decide (c ≠ ',')) d = false := by
      apply dropWhile_head_not (fun c => decide (c ≠ ',')) s
      rw [hd]
      rfl
    have hdc : d = ',' := by simpa using hdnot
    rw [hd, hdc] at h1
    exact h1.symm

theorem lastField_step {s : List Char} (h : s.any (· = ',') = true) :
    lastField ((s.dropWhile (· ≠ ',')).drop 1) = lastField s := by
  set r := (s.dropWhile (· ≠ ',')).drop 1 with hr
  have hdec := comma_decomposition h
  unfold lastField
  have hrev : s.reverse = r.reverse ++ ',' :: (s.takeWhile (· ≠ ',')).reverse := by
    calc s.reverse = (s.takeWhile (· ≠ ',') ++ ',' :: r).reverse := by rw [← hdec]
      _ = (',' :: r).reverse ++ (s.takeWhile (· ≠ ',')).reverse :=
          List.reverse_append ..
      _ = (r.reverse ++ [',']) ++ (s.takeWhile (· ≠ ',')).reverse := by
          rw [List.reverse_cons]
      _ = r.reverse ++ ',' :: (s.takeWhile (· ≠ ',')).reverse := by
          rw [List.append_assoc]
          rfl
  rw [hrev, takeWhile_append_absorb]
  intro c hc
  injection hc with hc1
  rw [← hc1]
  simp

theorem countComma_step {s : List Char} (h : s.any (· = ',') = true) :
    countComma s = countComma ((s.dropWhile (· ≠ ',')).drop 1) + 1 := by
  have hdec := comma_decomposition h
  unfold countComma
  calc s.countP (· = ',')
      = (s.takeWhile (· ≠ ',') ++
          ',' :: (s.dropWhile (· ≠ ',')).drop 1).countP (· = ',') := by
        rw [← hdec]
    _ = (s.takeWhile (· ≠ ',')).countP (· = ',') +
          (',' :: (s.dropWhile (· ≠ ',')).drop 1).countP (· = ',') :=
        List.countP_append _ _ _
    _ = 0 + (',' :: (s.dropWhile (· ≠ ',')).drop 1).countP (· = ',') := by
        have : (s.takeWhile (· ≠ ',')).countP (· = ',') = 0 := by
          rw [List.countP_eq_zero]
          intro a ha
          have := List.mem_takeWhile_imp ha
          simpa using this
        rw [this]
    _ = ((s.dropWhile (· ≠ ',')).drop 1).countP (· = ',') + 1 := by
        rw [List.countP_cons]
        simp

theorem splitField_out_of_range :
    ∀ (pos : Nat) (s : List Char), countComma s ≤ pos →
      splitField s pos = lastField s := by
  intro pos
  induction pos with
  | zero =>
    intro s hpos
    have hzero : countComma s = 0 := Nat.le_zero.mp hpos
    have hnc : ∀ c ∈ s, c ≠ ',' := no_comma_of_countComma_zero hzero
    unfold splitField
    rw [show (s.any (· = ',')) = false from any_comma_eq_false hnc]
    rw [lastField_no_comma hnc]
    rfl
  | succ pos ih =>
    intro s hpos
    unfold splitField
    cases hc : s.any (· = ',') with
    | false =>
      have hnc : ∀ c ∈ s, c ≠ ',' := by
        intro c hcm he
        have : s.any (· = ',') = true := List.any_eq_true.mpr ⟨c, hcm, by simp [he]⟩
        rw [hc] at this
        cases this
      rw [lastField_no_comma hnc]
      rfl
    | true =>
      have hcount := countComma_step hc
      have hle : countComma ((s.dropWhile (· ≠ ',')).drop 1) ≤ pos := by omega
      rw [if_pos rfl]
      rw [ih _ hle, lastField_step hc]

/-- C3 corrected: for a stored raw value with `k` comma-separated fields
(`k - 1` commas), `retrieve<T>(name, pos)` with `pos` at or past the last
field — in particular with `pos ≥ k` as the claim has it — does not raise
an index-out-of-range `ConversionError`: the `split` lambda falls through
to `substr(start, npos)` and returns the *last* field, which is then
converted as usual. -/
theorem spec_C3_amended_index_clamped {A : Type} (ex : Extractor A)
    {values : SMap String} {options : SMap Params} {name raw : String}
    {pos : Nat}
    (hfound : mapFind values name = some raw)
    (hpos : countComma raw.toList ≤ pos) :
    retrieve ex values options name pos =
      (match ex.extract (lastField raw.toList) with
       | some v => .ok v
       | none => .error (.conversionError (String.mk (lastField raw.toList))
           ex.typeName)) := by
  unfold retrieve
  rw [hfound]
  dsimp only
  rw [splitField_out_of_range pos raw.toList hpos]
  rfl

/-- C3's counterexample: `p` has arity 2 and was parsed with the two
values `1 2` (stored as `"1, 2"`); `retrieve<int>` at the out-of-range
field index 5 returns `Except.ok 2` — the last field — instead of failing
with a `ConversionError`. -/
theorem spec_C3_counterexample :
    (parse [("help", ⟨0, "", "Print this message", false⟩),
            ("load", ⟨1, "", "Load settings from configuration file", false⟩),
            ("p", ⟨2, "", "", true⟩)]
        ["--p", "1", "2"] (fun _ => none) []).2 = [("p", "1, 2")] ∧
    retrieve intExtractor
      (parse [("help", ⟨0, "", "Print this message", false⟩),
              ("load", ⟨1, "", "Load settings from configuration file", false⟩),
              ("p", ⟨2, "", "", true⟩)]
          ["--p", "1", "2"] (fun _ => none) []).2
      [("help", ⟨0, "", "Print this message", false⟩),
       ("load", ⟨1, "", "Load settings from configuration file", false⟩),
       ("p", ⟨2, "", "", true⟩)] "p" 5 = .ok 2 :=
  ⟨rfl, rfl⟩

/-- Witness for the amended C3: the stored value `"1, 2"` (one comma)
retrieved at field index 7 yields the last field, parsed as the integer 2. -/
theorem spec_C3_witness :
    retrieve intExtractor [("p", "1, 2")] initOptions "p" 7 = .ok 2 :=
  (spec_C3_amended_index_clamped intExtractor
    (show mapFind [("p", "1, 2")] "p" = some "1, 2" from rfl)
    (show countComma ("1, 2").toList ≤ 7 by decide)).trans rfl

/-! ## Stream extraction reads a numeric prefix only (C4) -/

theorem isWS_eq_false_of_isDigit {c : Char} (h : c.isDigit = true) :
    isWS c = false := by
  cases hB : isWS c with
  | false => rfl
  | true =>
    exfalso
    simp only [isWS, Bool.or_eq_true, decide_eq_true_eq] at hB
    rcases hB with ((((hc | hc) | hc) | hc) | hc) | hc <;> rw [hc] at h <;>
      exact absurd h (by decide)

theorem ne_dash_of_isDigit {c : Char} (h : c.isDigit = true) : c ≠ '-' := by
  intro he
  rw [he] at h
  exact absurd h (by decide)

theorem ne_plus_of_isDigit {c : Char} (h : c.isDigit = true) : c ≠ '+' := by
  intro he
  rw [he] at h
  exact absurd h (by decide)

theorem intParts_digit_run (ds rest : List Char)
    (hne : ds ≠ []) (hdig : ∀ c ∈ ds, c.isDigit = true)
    (hrest : ∀ c, rest.head? = some c → c.isDigit = false) :
    intDigits (ds ++ rest) = ds ∧ intNeg (ds ++ rest) = false ∧
      intVal (ds ++ rest) = (digitsToNat ds : Int) := by
  obtain ⟨d, ds', rfl⟩ := List.exists_cons_of_ne_nil hne
  have hd : d.isDigit = true := hdig d (by simp)
  have hnws : isWS d = false := isWS_eq_false_of_isDigit hd
  have hafter : afterWS ((d :: ds') ++ rest) = (d :: ds') ++ rest := by
    unfold afterWS
    rw [List.cons_append, List.dropWhile_cons, if_neg (by simp [hnws])]
  have hhead : ((d :: ds') ++ rest).head? = some d := rfl
  have htake : ((d :: ds') ++ rest).takeWhile Char.isDigit = d :: ds' :=
    takeWhile_append_stop Char.isDigit (d :: ds') rest hdig hrest
  have hneg : intNeg ((d :: ds') ++ rest) = false := by
    unfold intNeg
    rw [hafter, hhead]
    simp [ne_dash_of_isDigit hd]
  have hdigits : intDigits ((d :: ds') ++ rest) = d :: ds' := by
    unfold intDigits
    rw [hafter, hhead]
    rw [if_neg (by simp [ne_dash_of_isDigit hd, ne_plus_of_isDigit hd])]
    exact htake
  refine ⟨hdigits, hneg, ?_⟩
  unfold intVal
  rw [hneg, hdigits]
  rfl

theorem isEmpty_eq_false_of_ne_nil {ds : List Char} (hne : ds ≠ []) :
    ds.isEmpty = false := by
  cases ds with
  | nil => exact absurd rfl hne
  | cons d t => rfl

theorem extractInt_digit_run (ds rest : List Char)
    (hne : ds ≠ []) (hdig : ∀ c ∈ ds, c.isDigit = true)
    (hrest : ∀ c, rest.head? = some c → c.isDigit = false)
    (hbound : (digitsToNat ds : Int) ≤ intMax) :
    extractInt (ds ++ rest) = some (digitsToNat ds : Int) := by
  obtain ⟨hdigits, hneg, hval⟩ := intParts_digit_run ds rest hne hdig hrest
  have h0 : (0 : Int) ≤ (digitsToNat ds : Int) := Int.natCast_nonneg _
  unfold extractInt
  rw [hdigits, hval, isEmpty_eq_false_of_ne_nil hne]
  rw [if_neg (by simp)]
  rw [if_neg (by
    intro hOr
    rcases hOr with h | h
    · unfold intMin at h
      omega
    · exact absurd h (not_lt.mpr hbound))]

theorem extractInt_digit_run_overflow (ds rest : List Char)
    (hne : ds ≠ []) (hdig : ∀ c ∈ ds, c.isDigit = true)
    (hrest : ∀ c, rest.head? = some c → c.isDigit = false)
    (hover : intMax < (digitsToNat ds : Int)) :
    extractInt (ds ++ rest) = none := by
  obtain ⟨hdigits, hneg, hval⟩ := intParts_digit_run ds rest hne hdig hrest
  unfold extractInt
  rw [hdigits, hval, isEmpty_eq_false_of_ne_nil hne]
  rw [if_neg (by simp)]
  rw [if_pos (Or.inr hover)]

theorem extractInt_nondigit_start (f : List Char) (c : Char)
    (hhead : f.head? = some c) (hcd : c.isDigit = false)
    (hcw : isWS c = false) (hcm : c ≠ '-') (hcp : c ≠ '+') :
    extractInt f = none := by
  obtain ⟨f', rfl⟩ : ∃ f', f = c :: f' := by
    cases f with
    | nil => cases hhead
    | cons c0 f' =>
      injection hhead with h1
      exact ⟨f', by rw [h1]⟩
  have hafter : afterWS (c :: f') = c :: f' := by
    unfold afterWS
    rw [List.dropWhile_cons, if_neg (by simp [hcw])]
  have hdigits : intDigits (c :: f') = [] := by
    unfold intDigits
    rw [hafter]
    rw [if_neg (by simp [hcm, hcp])]
    rw [List.takeWhile_cons, if_neg (by simp [hcd])]
  unfold extractInt
  rw [hdigits]
  rfl

/-- The stored-value branch of `retrieve`, as an equation. -/
theorem retrieve_found {A : Type} (ex : Extractor A) {values : SMap String}
    (options : SMap Params) {name raw : String} (n : Nat)
    (hfound : mapFind values name = some raw) :
    retrieve ex values options name n =
      (match ex.extract (splitField raw.toList n) with
       | some v => .ok v
       | none => .error (.conversionError
           (String.mk (splitField raw.toList n)) ex.typeName)) := by
  unfold retrieve
  rw [hfound]
  rfl

/-- C4 corrected: `stringstream(argument) >> value` for `int` fails —
making `retrieve` throw `ConversionError` — exactly when no `int` can be
extracted from the *start* of the field: when the field (after the
whitespace skip) does not begin with a digit or sign, or when the digit
run's value is out of `int`'s range (`num_get` sets `failbit` on
out-of-range input).  Characters after the digit run are left unread
without setting `failbit`, so a field such as `"5x"` is *not* rejected:
`retrieve<int>` returns the numeric prefix. -/
theorem spec_C4_amended_prefix_conversion {values : SMap String}
    {options : SMap Params} {name raw : String} {pos : Nat}
    (hfound : mapFind values name = some raw) :
    (∀ ds rest, splitField raw.toList pos = ds ++ rest → ds ≠ [] →
      (∀ c ∈ ds, c.isDigit = true) →
      (∀ c, rest.head? = some c → c.isDigit = false) →
      retrieve intExtractor values options name pos =
        (if (digitsToNat ds : Int) ≤ intMax then .ok (digitsToNat ds : Int)
         else .error (.conversionError (String.mk (ds ++ rest))
           intExtractor.typeName))) ∧
    (∀ c, (splitField raw.toList pos).head? = some c → c.isDigit = false →
      isWS c = false → c ≠ '-' → c ≠ '+' →
      retrieve intExtractor values options name pos =
        .error (.conversionError (String.mk (splitField raw.toList pos))
          intExtractor.typeName)) := by
  constructor
  · intro ds rest hsplit hne hdig hrest
    rw [retrieve_found intExtractor options pos hfound, hsplit]
    by_cases hb : (digitsToNat ds : Int) ≤ intMax
    · rw [if_pos hb,
        show intExtractor.extract = extractInt from rfl,
        extractInt_digit_run ds rest hne hdig hrest hb]
    · rw [if_neg hb,
        show intExtractor.extract = extractInt from rfl,
        extractInt_digit_run_overflow ds rest hne hdig hrest (lt_of_not_le hb)]
  · intro c hhead hcd hcw hcm hcp
    rw [retrieve_found intExtractor options pos hfound,
      show intExtractor.extract = extractInt from rfl,
      extractInt_nondigit_start _ c hhead hcd hcw hcm hcp]

/-- C4's counterexample: the stored field `"5x"` does not fully parse as
`int`, yet `retrieve<int>` returns `Except.ok 5` (the parsed prefix)
instead of failing with a `ConversionError`. -/
theorem spec_C4_counterexample :
    retrieve intExtractor [("c", "5x")]
      [("help", ⟨0, "", "Print this message", false⟩),
       ("load", ⟨1, "", "Load settings from configuration file", false⟩),
       ("c", ⟨1, "", "", true⟩)] "c" 0 = .ok 5 := rfl

/-- Witness for the amended C4: the field `"5x"` yields the prefix 5; the
out-of-range digit run `"99999999999999999999x"` fails extraction and
raises `ConversionError`; the non-numeric start `"x5"` likewise fails. -/
theorem spec_C4_witness :
    retrieve intExtractor [("c", "5x")] initOptions "c" 0 = .ok 5 ∧
    retrieve intExtractor [("c", "99999999999999999999x")] initOptions "c" 0 =
      .error (.conversionError "99999999999999999999x" "i") ∧
    retrieve intExtractor [("c", "x5")] initOptions "c" 0 =
      .error (.conversionError "x5" "i") := by
  refine ⟨?_, ?_, ?_⟩
  · exact ((@spec_C4_amended_prefix_conversion [("c", "5x")] initOptions
      "c" "5x" 0 rfl).1 ['5'] ['x']
      rfl (by decide) (by decide) (by decide)).trans rfl
  · exact ((@spec_C4_amended_prefix_conversion
      [("c", "99999999999999999999x")] initOptions
      "c" "99999999999999999999x" 0 rfl).1
      ("99999999999999999999").toList ['x']
      rfl (by decide) (by decide) (by decide)).trans rfl
  · exact ((@spec_C4_amended_prefix_conversion [("c", "x5")] initOptions
      "c" "x5" 0 rfl).2 'x'
      rfl (by decide) (by decide) (by decide) (by decide)).trans rfl

/-! ## The lines written by `dump` (C5) -/

theorem string_eq_of_toList {a b : String} (h : a.toList = b.toList) :
    a = b := by
  rw [← mk_toList a, ← mk_toList b, h]

theorem entry_line_toList (k w : String) :
    (k ++ ": " ++ w).toList = k.toList ++ ':' :: ' ' :: w.toList := by
  show (k ++ ": " ++ w).data = k.data ++ ':' :: ' ' :: w.data
  rw [String.data_append, String.data_append,
    show ": ".data = [':', ' '] from rfl, List.append_assoc]
  rfl

theorem entry_line_key {k k' w w' : String}
    (hk : ∀ c ∈ k.toList, c ≠ ':') (hk' : ∀ c ∈ k'.toList, c ≠ ':')
    (h : k ++ ": " ++ w = k' ++ ": " ++ w') : k = k' := by
  have hdata : k.toList ++ ':' :: ' ' :: w.toList =
      k'.toList ++ ':' :: ' ' :: w'.toList := by
    have := congrArg String.toList h
    rw [entry_line_toList, entry_line_toList] at this
    exact this
  have h1 := findColon_append k.toList (' ' :: w.toList) hk
  have h2 := findColon_append k'.toList (' ' :: w'.toList) hk'
  rw [hdata, h2] at h1
  have hlen : k'.toList.length = k.toList.length := Option.some.inj h1
  apply string_eq_of_toList
  have htake := congrArg (List.take k.toList.length) hdata
  rw [List.take_left] at htake
  rw [← hlen, List.take_left] at htake
  exact htake

theorem entry_line_ne_empty (k w : String) (hne : k ≠ "") :
    k ++ ": " ++ w ≠ "" := by
  intro h
  apply hne
  have := congrArg String.toList h
  rw [entry_line_toList] at this
  cases hk : k.toList with
  | nil => exact string_eq_of_toList hk
  | cons c cs =>
    rw [hk] at this
    cases this

theorem entry_line_head {k w : String} (hne : k ≠ "") :
    (k ++ ": " ++ w).toList.head? = k.toList.head? := by
  rw [entry_line_toList]
  cases hk : k.toList with
  | nil =>
    exfalso
    exact hne (string_eq_of_toList hk)
  | cons c cs => rfl

/-- What every line produced by `dumpEntry` looks like. -/
theorem dumpEntry_shape {values : SMap String} {kv : String × Params}
    {line : String} (h : dumpEntry values kv = some line) :
    ∃ w, line = kv.1 ++ ": " ++ w ∧
      (mapFind values kv.1 = some w ∨
        (mapFind values kv.1 = none ∧ kv.2.user_option = true ∧
          w = kv.2.default_value)) := by
  unfold dumpEntry at h
  cases hf : mapFind values kv.1 with
  | some v =>
    rw [hf] at h
    injection h with h1
    exact ⟨v, h1.symm, Or.inl rfl⟩
  | none =>
    rw [hf] at h
    dsimp only at h
    by_cases hu : kv.2.user_option = true
    · rw [if_pos hu] at h
      injection h with h1
      exact ⟨kv.2.default_value, h1.symm, Or.inr ⟨rfl, hu, rfl⟩⟩
    · rw [if_neg hu] at h
      cases h

/-- C5 corrected: `dump` writes one `name: value` line per option with an
entry in the value store, and one `name: default` line per *every*
user-defined option without an entry — including one whose default is the
empty string, which yields a `name: ` line, because the C++ condition
tests only `user_option` (the init-statement `auto default_value = ...`
is a declaration, not part of the condition).  Only unset built-ins
produce nothing. -/
theorem spec_C5_amended_dump_lines {options : SMap Params}
    {values : SMap String} {ts : Option String} {k : String} {p : Params}
    (hwf : mapWF options) (hmem : (k, p) ∈ options)
    (hclean : ∀ kv ∈ options, cleanKey kv.1) :
    (∀ v, mapFind values k = some v →
      (k ++ ": " ++ v) ∈ dumpLines options values ts) ∧
    (mapFind values k = none → p.user_option = true →
      (k ++ ": " ++ p.default_value) ∈ dumpLines options values ts) ∧
    (mapFind values k = none → p.user_option = false →
      ∀ w, (k ++ ": " ++ w) ∉ dumpLines options values ts) := by
  have hkclean : cleanKey k := hclean (k, p) hmem
  refine ⟨?_, ?_, ?_⟩
  · intro v hv
    unfold dumpLines
    refine List.mem_append.mpr (Or.inl (List.mem_append.mpr (Or.inr ?_)))
    refine List.mem_filterMap.mpr ⟨(k, p), hmem, ?_⟩
    unfold dumpEntry
    rw [hv]
  · intro hnone hu
    unfold dumpLines
    refine List.mem_append.mpr (Or.inl (List.mem_append.mpr (Or.inr ?_)))
    refine List.mem_filterMap.mpr ⟨(k, p), hmem, ?_⟩
    unfold dumpEntry
    rw [hnone]
    dsimp only
    rw [if_pos hu]
  · intro hnone hu w hw
    unfold dumpLines at hw
    rcases List.mem_append.mp hw with hw | hw
    · rcases List.mem_append.mp hw with hw | hw
      · have hhead := entry_line_head (w := w) hkclean.1
        rcases List.mem_cons.mp hw with hw | hw
        · exact entry_line_ne_empty k w hkclean.1 hw
        · rcases List.mem_cons.mp hw with hw | hw
          · cases hts : ts with
            | some t =>
              rw [hts] at hw
              apply hkclean.2.1
              rw [← hhead, hw]
              rfl
            | none =>
              rw [hts] at hw
              apply hkclean.2.1
              rw [← hhead, hw]
              rfl
          · rcases List.mem_cons.mp hw with hw | hw
            · exact entry_line_ne_empty k w hkclean.1 hw
            · cases hw
      · obtain ⟨⟨k', p'⟩, hmem', hentry⟩ := List.mem_filterMap.mp hw
        obtain ⟨w', hline, hcase⟩ := dumpEntry_shape hentry
        have hkeq : k = k' :=
          entry_line_key (fun c hc => (hkclean.2.2 c hc).1)
            (fun c hc => ((hclean (k', p') hmem').2.2 c hc).1) hline
        rw [← hkeq] at hmem' hcase
        have hpeq : p = p' := mem_value_unique hwf hmem hmem'
        rcases hcase with hcase | hcase
        · rw [hnone] at hcase
          cases hcase
        · rw [← hpeq] at hcase
          rw [hu] at hcase
          cases hcase.2.1
    · rcases List.mem_cons.mp hw with hw | hw
      · exact entry_line_ne_empty k w hkclean.1 hw
      · cases hw

/-- C5's counterexample: the user option `x` has the empty default and no
entry in the value store, yet `dump` writes the line `"x: "` for it — the
claim says such an option produces no line. -/
theorem spec_C5_counterexample :
    dumpLines
      [("help", ⟨0, "", "Print this message", false⟩),
       ("load", ⟨1, "", "Load settings from configuration file", false⟩),
       ("x", ⟨1, "", "", true⟩)] [] none =
      ["", "# Created automaticaly by optparse", "", "x: ", ""] ∧
    mapFind ([] : SMap String) "x" = none := ⟨rfl, rfl⟩

/-- Witness for the amended C5, at a registry with a valued option `a`, an
unset empty-default user option `x` and the unset built-ins: exactly the
lines `a: 1` and `x: ` appear, and no `help` line does. -/
theorem spec_C5_witness :
    ("a" ++ ": " ++ "1") ∈ dumpLines
      [("help", ⟨0, "", "Print this message", false⟩),
       ("load", ⟨1, "", "Load settings from configuration file", false⟩),
       ("a", ⟨1, "", "", true⟩), ("x", ⟨1, "", "", true⟩)]
      [("a", "1")] none ∧
    ("x" ++ ": " ++ "") ∈ dumpLines
      [("help", ⟨0, "", "Print this message", false⟩),
       ("load", ⟨1, "", "Load settings from configuration file", false⟩),
       ("a", ⟨1, "", "", true⟩), ("x", ⟨1, "", "", true⟩)]
      [("a", "1")] none ∧
    ∀ w, ("help" ++ ": " ++ w) ∉ dumpLines
      [("help", ⟨0, "", "Print this message", false⟩),
       ("load", ⟨1, "", "Load settings from configuration file", false⟩),
       ("a", ⟨1, "", "", true⟩), ("x", ⟨1, "", "", true⟩)]
      [("a", "1")] none := by
  refine ⟨?_, ?_, ?_⟩
  · exact (spec_C5_amended_dump_lines (by unfold mapWF; decide)
      (show ("a", (⟨1, "", "", true⟩ : Params)) ∈
        [("help", ⟨0, "", "Print this message", false⟩),
         ("load", ⟨1, "", "Load settings from configuration file", false⟩),
         ("a", ⟨1, "", "", true⟩), ("x", ⟨1, "", "", true⟩)] by decide)
      (by decide)).1 "1" rfl
  · exact (spec_C5_amended_dump_lines (by unfold mapWF; decide)
      (show ("x", (⟨1, "", "", true⟩ : Params)) ∈
        [("help", ⟨0, "", "Print this message", false⟩),
         ("load", ⟨1, "", "Load settings from configuration file", false⟩),
         ("a", ⟨1, "", "", true⟩), ("x", ⟨1, "", "", true⟩)] by decide)
      (by decide)).2.1 rfl rfl
  · exact (spec_C5_amended_dump_lines (by unfold mapWF; decide)
      (show ("help", (⟨0, "", "Print this message", false⟩ : Params)) ∈
        [("help", ⟨0, "", "Print this message", false⟩),
         ("load", ⟨1, "", "Load settings from configuration file", false⟩),
         ("a", ⟨1, "", "", true⟩), ("x", ⟨1, "", "", true⟩)] by decide)
      (by decide)).2.2 rfl rfl

/-! ## `dump` followed by `load` (C8) -/

theorem dump_entries_eq (options : SMap Params) (values : SMap String) :
    options.filterMap (dumpEntry values) =
      (entryPairs options values).map (fun kp => kp.1 ++ ": " ++ kp.2) := by
  unfold entryPairs
  rw [List.map_filterMap]
  apply List.filterMap_congr
  intro kv _
  unfold dumpEntry
  cases hf : mapFind values kv.1 with
  | some v => rfl
  | none =>
    dsimp only
    by_cases hu : kv.2.user_option = true
    · rw [if_pos hu, if_pos hu]
      rfl
    · rw [if_neg hu, if_neg hu]
      rfl

theorem entryPairs_keys_sublist (options : SMap Params) (values : SMap String) :
    ((entryPairs options values).map Prod.fst).Sublist (options.map Prod.fst) := by
  induction options with
  | nil => exact List.Sublist.refl _
  | cons hd tl ih =>
    unfold entryPairs at ih ⊢
    rw [List.filterMap_cons]
    cases hf : mapFind values hd.1 with
    | some v =>
      rw [List.map_cons, List.map_cons]
      exact List.Sublist.cons₂ _ ih
    | none =>
      dsimp only
      cases hu : hd.2.user_option
      · rw [if_neg (by simp [hu]), List.map_cons]
        exact List.Sublist.cons _ ih
      · rw [if_pos (by simp [hu]), List.map_cons, List.map_cons]
        exact List.Sublist.cons₂ _ ih

theorem entryPairs_wf {options : SMap Params} (values : SMap String)
    (hwf : mapWF options) : mapWF (entryPairs options values) :=
  (entryPairs_keys_sublist options values).nodup hwf

theorem entryPairs_mem {options : SMap Params} {values : SMap String}
    {k w : String} (h : (k, w) ∈ entryPairs options values) :
    ∃ p, (k, p) ∈ options ∧
      (mapFind values k = some w ∨
        (mapFind values k = none ∧ p.user_option = true ∧
          w = p.default_value)) := by
  obtain ⟨⟨k0, p⟩, hmem, hf⟩ := List.mem_filterMap.mp h
  dsimp only at hf
  cases hv : mapFind values k0 with
  | some v =>
    rw [hv] at hf
    injection hf with hf1
    have hk : k0 = k := congrArg Prod.fst hf1
    have hw : v = w := congrArg Prod.snd hf1
    subst hk
    exact ⟨p, hmem, Or.inl (by rw [hv, hw])⟩
  | none =>
    rw [hv] at hf
    dsimp only at hf
    by_cases hu : p.user_option = true
    · rw [if_pos hu] at hf
      injection hf with hf1
      have hk : k0 = k := congrArg Prod.fst hf1
      have hw : p.default_value = w := congrArg Prod.snd hf1
      subst hk
      exact ⟨p, hmem, Or.inr ⟨hv, hu, hw.symm⟩⟩
    · rw [if_neg hu] at hf
      cases hf

theorem entryPairs_mem_of_value {options : SMap Params} {values : SMap String}
    {k v : String} {p : Params} (hmem : (k, p) ∈ options)
    (hv : mapFind values k = some v) : (k, v) ∈ entryPairs options values := by
  refine List.mem_filterMap.mpr ⟨(k, p), hmem, ?_⟩
  dsimp only
  rw [hv]

theorem entryPairs_mem_of_default {options : SMap Params} {values : SMap String}
    {k : String} {p : Params} (hmem : (k, p) ∈ options)
    (hv : mapFind values k = none) (hu : p.user_option = true) :
    (k, p.default_value) ∈ entryPairs options values := by
  refine List.mem_filterMap.mpr ⟨(k, p), hmem, ?_⟩
  dsimp only
  rw [hv]
  dsimp only
  rw [if_pos hu]

theorem stripWS_entry_line (k w : String)
    (hk : ∀ c ∈ k.toList, isWS c = false) :
    (stripWS (k ++ ": " ++ w)).toList = k.toList ++ ':' :: (stripWS w).toList := by
  rw [stripWS_toList, entry_line_toList, List.filter_append,
    filter_non_ws_eq_self k.toList hk, List.filter_cons,
    if_pos (by decide), List.filter_cons, if_neg (by decide)]
  rfl

theorem head?_append_left {u v : List Char} (h : u ≠ []) :
    (u ++ v).head? = u.head? := by
  cases u with
  | nil => exact absurd rfl h
  | cons c cs => rfl

theorem strip_head_hash {s : String} (h : s.toList.head? = some '#') :
    (stripWS s).toList.headD '\x00' = '#' := by
  rw [stripWS_toList]
  cases hs : s.toList with
  | nil => rw [hs] at h; cases h
  | cons c cs =>
    rw [hs] at h
    injection h with h1
    subst h1
    rw [List.filter_cons, if_pos (by decide)]
    rfl

theorem loadLines_skip (options : SMap Params) (line : String)
    (rest : List String) (acc : SMap String)
    (h : (stripWS line).toList.headD '\x00' = '#' ∨ (stripWS line).toList = []) :
    loadLines options (line :: rest) acc = loadLines options rest acc := by
  unfold loadLines
  rw [if_pos h]
  cases rest with
  | nil => rfl
  | cons l r => rfl

theorem loadLines_entry_step (options : SMap Params) (k w : String)
    (rest : List String) (acc : SMap String)
    (hclean : cleanKey k) (hreg : (mapFind options k).isSome = true)
    (hacc : mapFind acc k = none) :
    loadLines options ((k ++ ": " ++ w) :: rest) acc =
      loadLines options rest (acc ++ [(k, stripWS w)]) := by
  have hsl : (stripWS (k ++ ": " ++ w)).toList =
      k.toList ++ ':' :: (stripWS w).toList :=
    stripWS_entry_line k w (fun c hc => (hclean.2.2 c hc).2)
  obtain ⟨c, cs, hk⟩ : ∃ c cs, k.toList = c :: cs := by
    cases hkl : k.toList with
    | nil => exact absurd (string_eq_of_toList hkl) hclean.1
    | cons c cs => exact ⟨c, cs, rfl⟩
  have hch : c ≠ '#' := by
    intro he
    apply hclean.2.1
    rw [hk, he]
    rfl
  have hcond : ¬((k.toList ++ ':' :: (stripWS w).toList).headD '\x00' = '#' ∨
      (k.toList ++ ':' :: (stripWS w).toList) = []) := by
    rw [hk]
    intro hOr
    rcases hOr with hOr | hOr
    · exact hch (by simpa using hOr)
    · simp at hOr
  obtain ⟨p, hp⟩ := Option.isSome_iff_exists.mp hreg
  have hcolonfree : ∀ c ∈ k.toList, c ≠ ':' :=
    fun c hc => (hclean.2.2 c hc).1
  unfold loadLines
  rw [hsl, if_neg hcond]
  dsimp only
  rw [splitColon_append k.toList (stripWS w).toList hcolonfree]
  dsimp only
  rw [mk_toList, mk_toList, hp]
  dsimp only
  rw [mapInsert_not_found _ hacc]
  cases rest with
  | nil => rfl
  | cons l r => rfl

theorem loadLines_entry_block (options : SMap Params) :
    ∀ (ps : SMap String) (tail : List String) (acc : SMap String),
      (∀ kp ∈ ps, cleanKey kp.1 ∧ (mapFind options kp.1).isSome = true) →
      (∀ kp ∈ ps, mapFind acc kp.1 = none) →
      mapWF ps →
      ∃ res : SMap String,
        loadLines options
            (ps.map (fun kp => kp.1 ++ ": " ++ kp.2) ++ tail) acc =
          loadLines options tail res ∧
        ∀ k, mapFind res k =
          (match mapFind acc k with
           | some v => some v
           | none => (mapFind ps k).map stripWS) := by
  intro ps
  induction ps with
  | nil =>
    intro tail acc hok hacc hwf
    refine ⟨acc, rfl, fun k => ?_⟩
    cases h : mapFind acc k <;> simp [h, mapFind]
  | cons hd ps' ih =>
    intro tail acc hok hacc hwf
    obtain ⟨k, w⟩ := hd
    have hhd := hok (k, w) (by simp)
    have hhdacc := hacc (k, w) (by simp)
    have hknodup : k ∉ ps'.map Prod.fst := by
      have := hwf
      simp only [mapWF, List.map_cons, List.nodup_cons] at this
      exact this.1
    rw [List.map_cons, List.cons_append,
      loadLines_entry_step options k w _ acc hhd.1 hhd.2 hhdacc]
    obtain ⟨res, hres, hfind⟩ := ih tail (acc ++ [(k, stripWS w)])
      (fun kp hkp => hok kp (by simp [hkp]))
      (fun kp hkp => by
        rw [mapFind_append, hacc kp (by simp [hkp])]
        have hkne : kp.1 ≠ k := by
          intro he
          apply hknodup
          rw [← he]
          exact List.mem_map.mpr ⟨kp, hkp, rfl⟩
        simp [mapFind, hkne])
      (by
        have := hwf
        simp only [mapWF, List.map_cons, List.nodup_cons] at this
        exact this.2)
    refine ⟨res, hres, fun k' => ?_⟩
    rw [hfind k']
    by_cases hk' : k' = k
    · subst hk'
      rw [mapFind_append, hhdacc]
      simp [mapFind]
    · rw [mapFind_append]
      cases ha : mapFind acc k' with
      | some v => simp [mapFind, hk']
      | none => simp [mapFind, hk']

/-- C8: `dump` to a fresh path followed by `load` of that path succeeds
and returns a mapping that assigns to every option with an entry in the
value store, and to every user-defined option without one (in particular
those with a non-empty default, as the claim states), the whitespace-
stripped stored or default value — byte-for-byte equal to it whenever it
contains no whitespace.  The hypotheses require registry names the codec
can reproduce and line-representable values (no embedded newlines). -/
theorem spec_C8_dump_load_roundtrip {options : SMap Params}
    {values : SMap String} {ts : Option String}
    {fs : String → Option (List String)} {path : String}
    (hwf : mapWF options)
    (hclean : ∀ kv ∈ options, cleanKey kv.1)
    (hfs : fs path = some (dumpLines options values ts))
    (hnlv : ∀ kv ∈ values, '\n' ∉ kv.2.toList)
    (hnld : ∀ kv ∈ options, '\n' ∉ kv.2.default_value.toList)
    (hnlts : ∀ t, ts = some t → '\n' ∉ t.toList) :
    ∃ loaded, load options fs path = .ok loaded ∧
      (∀ k p v, (k, p) ∈ options → mapFind values k = some v →
        mapFind loaded k = some (stripWS v)) ∧
      (∀ k p, (k, p) ∈ options → mapFind values k = none →
        p.user_option = true →
        mapFind loaded k = some (stripWS p.default_value)) := by
  have hpairsok : ∀ kp ∈ entryPairs options values,
      cleanKey kp.1 ∧ (mapFind options kp.1).isSome = true := by
    intro kp hkp
    obtain ⟨p, hmem, _⟩ := entryPairs_mem (k := kp.1) (w := kp.2)
      (by simpa using hkp)
    exact ⟨hclean (kp.1, p) hmem, mapFind_isSome_of_mem hmem⟩
  obtain ⟨res, hres, hfind⟩ := loadLines_entry_block options
    (entryPairs options values) [""] []
    hpairsok (fun kp _ => rfl) (entryPairs_wf values hwf)
  have hhdr : ∀ hdr : String, hdr.toList.head? = some '#' →
      loadLines options
        ("" :: hdr :: "" ::
          ((entryPairs options values).map (fun kp => kp.1 ++ ": " ++ kp.2)
            ++ [""])) [] = .ok res := by
    intro hdr hh
    rw [loadLines_skip options "" _ [] (Or.inr rfl),
      loadLines_skip options hdr _ [] (Or.inl (strip_head_hash hh)),
      loadLines_skip options "" _ [] (Or.inr rfl), hres,
      loadLines_skip options "" _ res (Or.inr rfl)]
    rfl
  have hload : load options fs path = .ok res := by
    unfold load
    rw [hfs]
    dsimp only
    unfold dumpLines
    rw [dump_entries_eq]
    cases hts : ts with
    | none => exact hhdr "# Created automaticaly by optparse" rfl
    | some t =>
      refine hhdr ("# Created automaticaly by optparse on " ++ t) ?_
      rw [show ("# Created automaticaly by optparse on " ++ t).toList =
        ("# Created automaticaly by optparse on ").data ++ t.data from
          String.data_append ..]
      rw [head?_append_left (by decide)]
      rfl
  refine ⟨res, hload, fun k p v hmem hv => ?_, fun k p hmem hv hu => ?_⟩
  · rw [hfind k]
    dsimp only [mapFind]
    rw [mapFind_eq_of_mem (entryPairs_wf values hwf)
      (entryPairs_mem_of_value hmem hv)]
    rfl
  · rw [hfind k]
    dsimp only [mapFind]
    rw [mapFind_eq_of_mem (entryPairs_wf values hwf)
      (entryPairs_mem_of_default hmem hv hu)]
    rfl

/-- Witness for C8: a registry with a valued option `a`, a defaulted
unset option `d` and the built-ins round-trips through `dump` and `load`. -/
theorem spec_C8_witness :
    ∃ loaded, load
      [("help", ⟨0, "", "Print this message", false⟩),
       ("load", ⟨1, "", "Load settings from configuration file", false⟩),
       ("a", ⟨1, "", "", true⟩), ("d", ⟨1, "7", "", true⟩)]
      (fun p => if p = "cfg" then some (dumpLines
        [("help", ⟨0, "", "Print this message", false⟩),
         ("load", ⟨1, "", "Load settings from configuration file", false⟩),
         ("a", ⟨1, "", "", true⟩), ("d", ⟨1, "7", "", true⟩)]
        [("a", "5")] (some "Sun Oct 17 04:41:13 2010")) else none)
      "cfg" = .ok loaded ∧
      mapFind loaded "a" = some "5" ∧ mapFind loaded "d" = some "7" := by
  obtain ⟨loaded, hload, hset, hdef⟩ := @spec_C8_dump_load_roundtrip
    [("help", ⟨0, "", "Print this message", false⟩),
     ("load", ⟨1, "", "Load settings from configuration file", false⟩),
     ("a", ⟨1, "", "", true⟩), ("d", ⟨1, "7", "", true⟩)]
    [("a", "5")]
    (some "Sun Oct 17 04:41:13 2010")
    (fun p => if p = "cfg" then some (dumpLines
        [("help", ⟨0, "", "Print this message", false⟩),
         ("load", ⟨1, "", "Load settings from configuration file", false⟩),
         ("a", ⟨1, "", "", true⟩), ("d", ⟨1, "7", "", true⟩)]
        [("a", "5")] (some "Sun Oct 17 04:41:13 2010")) else none)
    "cfg"
    (by unfold mapWF; decide) (by decide) rfl
    (by decide) (by decide)
    (by
      intro t ht hc
      injection ht with ht1
      rw [← ht1] at hc
      exact absurd hc (by decide))
  refine ⟨loaded, hload, ?_, ?_⟩
  · have := hset "a" ⟨1, "", "", true⟩ "5" (by decide) rfl
    rw [this]
    rfl
  · have := hdef "d" ⟨1, "7", "", true⟩ (by decide) rfl rfl
    rw [this]
    rfl

end Optparse
